import Mathlib

/-!
Verification of the binary-codec core of `casper-wasm`: the bounded
byte-stream abstraction (`src/io.rs`) and the name-metadata subsystem
(`src/elements/name_section.rs`), together with the varint codec, sparse
index map and module context they depend on (code outside `src/`,
modelled from the specification document).

Conventions of the embedding:
* Bytes are `Nat` values `< 256`; buffers are `List Nat`.
* `usize` arithmetic is `Nat` with explicit bounds checks against
  `2 ^ 64` where the Rust code performs checked arithmetic, and an
  explicit `panic` outcome (`PRes.panic`) where the Rust code would
  panic (e.g. `usize` subtraction underflow in debug builds, slice
  indexing out of range in release builds).
* Fallible Rust functions returning `Result` become functions into
  `PRes` (readers) or `Except Error` (writers).
-/

namespace CasperWasm

/-- The error kinds of `io::Error` and `elements::Error` that the verified
code surfaces, merged into one type the way the `From<io::Error>`
conversion identifies them. `DuplicatedNameSubsections`, `InvalidVarInt32`
appear verbatim in `name_section.rs`; `OutOfBoundsIndex` and
`DuplicateIndex` stand for the dedicated index-map decode errors the
specification describes. -/
inductive Error where
  | TrailingData
  | UnexpectedEof
  | InvalidData
  | InvalidInput
  | InvalidVarInt32
  | DuplicatedNameSubsections (tag : Nat)
  | OutOfBoundsIndex
  | DuplicateIndex
deriving DecidableEq, Repr

/-- Result of a fallible read-side operation: success, a typed error, or a
Rust panic (arithmetic underflow / out-of-range slice indexing). -/
inductive PRes (α : Type) where
  | ok (a : α)
  | err (e : Error)
  | panic
deriving DecidableEq, Repr

/-- `usize::MAX` on the 64-bit platforms the crate targets. -/
def USIZE_MAX : Nat := 2 ^ 64 - 1

/-- `io::Cursor<T>`: an in-memory byte buffer plus a current position
(`inner: T, pos: usize`). -/
structure Cursor where
  data : List Nat
  pos : Nat
deriving DecidableEq, Repr

namespace Cursor

/-- `Cursor::read` (`src/io.rs` lines 70-82): computes
`remainder = slice.len() - self.pos` in `usize` (which panics in debug
builds when `pos > len`, and in release builds wraps so that the
subsequent slice indexing `slice[pos..pos + requested]` panics), returns
`UnexpectedEof` when `requested > remainder`, and otherwise copies the
next `requested` bytes and advances `pos`. -/
def read (c : Cursor) (n : Nat) : PRes (List Nat × Cursor) :=
  if c.data.length < c.pos then .panic
  else
    let remainder := c.data.length - c.pos
    if remainder < n then .err .UnexpectedEof
    else .ok ((c.data.drop c.pos).take n, ⟨c.data, c.pos + n⟩)

/-- `Cursor::seek_relative` (`src/io.rs` lines 85-89): converts the `i64`
offset to `usize` with `try_into` (which fails for every negative offset),
then `checked_add`s it onto `pos`. -/
def seek_relative (c : Cursor) (offset : Int) : PRes Cursor :=
  if offset < 0 then .err .InvalidInput
  else if USIZE_MAX < c.pos + offset.toNat then .err .InvalidInput
  else .ok ⟨c.data, c.pos + offset.toNat⟩

/-- `Cursor::stream_position`: `pos` converted `usize → u64`, which on the
64-bit platforms modelled here always succeeds. -/
def stream_position (c : Cursor) : Nat := c.pos

/-- `Cursor::stream_len`: the buffer length, `usize → u64`. -/
def stream_len (c : Cursor) : Nat := c.data.length

end Cursor

/-- A deserializer: a state-passing function over the cursor, mirroring a
Rust `fn deserialize<R: io::Read>(rdr: &mut R) -> Result<Self, Error>`. -/
def Deser (α : Type) : Type := Cursor → PRes (α × Cursor)

/-- Sequencing of deserializers, mirroring Rust's `?` propagation. -/
def dbind {α β : Type} (f : Deser α) (g : α → Deser β) : Deser β :=
  fun c =>
    match f c with
    | .ok (a, c') => g a c'
    | .err e => .err e
    | .panic => .panic

def dpure {α : Type} (a : α) : Deser α := fun c => .ok (a, c)

/-- Early return with an error, mirroring `return Err(e)`. -/
def dthrow {α : Type} (e : Error) : Deser α := fun _ => .err e

instance : Monad Deser where
  pure := dpure
  bind := dbind

/-- Read exactly `n` bytes (a `read` into an `n`-byte buffer). -/
def readN (n : Nat) : Deser (List Nat) := fun c =>
  match c.read n with
  | .ok (bs, c') => .ok (bs, c')
  | .err e => .err e
  | .panic => .panic

/-- Read a single byte (a `read` into a 1-byte buffer). -/
def readByte : Deser Nat := fun c =>
  match c.read 1 with
  | .ok (bs, c') => .ok (bs.headD 0, c')
  | .err e => .err e
  | .panic => .panic

/-- Modelled from the spec: `VarUint7::deserialize` (primitives module,
not under `src/`) reads a single tag byte. The in-repo regression test
`deserialize_invalid_name_section` feeds the tag byte `0xFF` and expects
the unrecognized-tag skip branch to run, so this read accepts any byte
value unchanged. -/
def varUint7Deser : Deser Nat := readByte

/-- LEB128 emission of one unsigned value: 7-bit groups, least
significant first, high bit set on every byte but the last. The first
argument is structural fuel; `n + 1` digits always suffice. -/
def leb128Aux : Nat → Nat → List Nat
  | 0, n => [n % 128]
  | fuel + 1, n => if n < 128 then [n] else (n % 128 + 128) :: leb128Aux fuel (n / 128)

/-- Modelled from the spec: the unsigned LEB128 encoder used by
`VarUint32::serialize` (primitives module, not under `src/`). -/
def leb128 (n : Nat) : List Nat := leb128Aux (n + 1) n

/-- Modelled from the spec: the decode loop of `VarUint32::deserialize`
(primitives module, not under `src/`): accumulate 7-bit groups into a
`u32` (wrapping, hence the `% 2 ^ 32`), stop at the first byte without
the continuation bit, and fail with `InvalidVarInt32` once the shift
exceeds 31, i.e. when a 6th byte would be needed. The first argument is
structural fuel; the `31 < shift` guard fires before fuel `6` runs out. -/
def varUint32Go : Nat → Nat → Nat → Deser Nat
  | 0, _, _ => dthrow .InvalidVarInt32
  | fuel + 1, res, shift =>
    if 31 < shift then dthrow .InvalidVarInt32
    else do
      let b ← readByte
      let res' := (res + b % 128 * 2 ^ shift) % 2 ^ 32
      if b < 128 then pure res' else varUint32Go fuel res' (shift + 7)

/-- `VarUint32::deserialize`, modelled from the spec. -/
def varUint32Deser : Deser Nat := varUint32Go 6 0 0

/-- Modelled from the spec: `String::deserialize` (not under `src/`)
reads a `varuint32` byte length followed by that many bytes. Names are
kept as raw byte lists; the UTF-8 validation of the original does not
affect any claim verified here because serialization always emits the
bytes of an existing name. -/
def stringDeser : Deser (List Nat) := do
  let n ← varUint32Deser
  readN n

/-- Modelled from the spec: `String`/name serialization, a `varuint32`
length prefix followed by the bytes (lengths must fit in a `u32`). -/
def serializeString (s : List Nat) : Except Error (List Nat) :=
  if 2 ^ 32 ≤ s.length then .error .InvalidVarInt32
  else .ok (leb128 s.length ++ s)

/-! ## The sparse index map (`elements/index_map.rs`, not under `src/`)

Modelled from the spec: an ordered mapping from `u32` indices to values,
held as an association list in ascending key order.  Deserialization
reads an entry count, then per entry an index and a value, rejecting an
index at or above the caller-supplied bound and an index seen twice. -/

/-- One deserialization step per remaining entry
(`IndexMap::deserialize_with`'s loop, modelled from the spec). The value
decoder is parameterized by the entry's own index. -/
def deserEntries {α : Type} (bound : Nat) (deserV : Nat → Deser α) :
    Nat → List (Nat × α) → Deser (List (Nat × α))
  | 0, acc => pure acc
  | n + 1, acc => do
    let idx ← varUint32Deser
    if bound ≤ idx then dthrow .OutOfBoundsIndex
    else if idx ∈ acc.map Prod.fst then dthrow .DuplicateIndex
    else do
      let v ← deserV idx
      deserEntries bound deserV n (acc ++ [(idx, v)])

/-- Modelled from the spec: `IndexMap::deserialize_with`: read the entry
count as a `varuint32`, then that many `(index, value)` entries, with the
per-entry bound and duplicate checks. -/
def deserializeIndexMapWith {α : Type} (bound : Nat) (deserV : Nat → Deser α) :
    Deser (List (Nat × α)) := do
  let count ← varUint32Deser
  deserEntries bound deserV count []

/-- Modelled from the spec: `IndexMap::deserialize`, the simple entry
point whose value decoder does not depend on the entry index. -/
def deserializeIndexMap {α : Type} (bound : Nat) (deserV : Deser α) :
    Deser (List (Nat × α)) :=
  deserializeIndexMapWith bound (fun _ => deserV)

/-- Modelled from the spec: serialization of the index-map entries, each
index as a `varuint32` immediately followed by the value's own
serialization, in the map's (ascending) order. -/
def serializeEntries {α : Type} (serV : α → Except Error (List Nat)) :
    List (Nat × α) → Except Error (List Nat)
  | [] => .ok []
  | (k, v) :: rest => do
    let vb ← serV v
    let rb ← serializeEntries serV rest
    pure (leb128 k ++ vb ++ rb)

/-- Modelled from the spec: `IndexMap::serialize`: emit the entry count
as a `varuint32`, then the entries in ascending index order. -/
def serializeIndexMap {α : Type} (serV : α → Except Error (List Nat))
    (entries : List (Nat × α)) : Except Error (List Nat) := do
  if 2 ^ 32 ≤ entries.length then throw .InvalidVarInt32
  else
    let body ← serializeEntries serV entries
    pure (leb128 entries.length ++ body)

/-! ## The module context (`elements/module.rs` etc., not under `src/`)

Modelled from the spec: the already-parsed `Module` exposes the derived
quantities the name subsystem validates against — the function space
(imported plus locally defined function count), the type section's
function signatures (for parameter counts) and the code section's bodies
(for declared-local counts).  The function section (one type index per
locally defined function) is carried so that the per-function bound the
spec describes can be stated and compared with the implemented one. -/

inductive ValueType where
  | i32 | i64 | f32 | f64
deriving DecidableEq, Repr

/-- A function signature; only `params().len()` is consumed by the
verified code. -/
structure FunctionType where
  params : List ValueType
deriving DecidableEq, Repr

/-- `Type` of the type section (`let Type::Function(ref func) = *x;`). -/
inductive Type' where
  | function (f : FunctionType)
deriving DecidableEq, Repr

/-- One `local` declaration of a function body: a repeat `count` (`u32`)
of one value type. -/
structure Local where
  count : Nat
  type : ValueType
deriving DecidableEq, Repr

/-- A code-section function body; only `locals()` is consumed by the
verified code. -/
structure FuncBody where
  locals : List Local
deriving DecidableEq, Repr

structure Module where
  /-- `Module::functions_space()`: imported plus defined function count. -/
  functions_space : Nat
  /-- `Module::type_section()`, when present: the declared signatures. -/
  type_section : Option (List Type')
  /-- `Module::function_section()`, when present: one type-section index
  per locally defined function. -/
  function_section : Option (List Nat)
  /-- `Module::code_section()`, when present: the function bodies, in the
  same order as the function section. -/
  code_section : Option (List FuncBody)
deriving DecidableEq, Repr

/-- `max_signature_args` of `LocalNameSubsection::deserialize`
(`name_section.rs` lines 256-268): the maximum parameter count over all
type-section entries, `0` for an absent or empty section. -/
def maxSignatureArgs (m : Module) : Nat :=
  match m.type_section with
  | none => 0
  | some ts => (ts.map fun t => match t with | .function f => f.params.length).foldr Nat.max 0

/-- `max_locals` of `LocalNameSubsection::deserialize` (`name_section.rs`
lines 270-279): the maximum, over all code-section bodies, of the summed
declared-local counts, `0` for an absent or empty section. -/
def maxLocals (m : Module) : Nat :=
  match m.code_section with
  | none => 0
  | some cs => (cs.map fun b => (b.locals.map fun l => l.count).sum).foldr Nat.max 0

/-! ## The name section (`src/src/elements/name_section.rs`) -/

def NAME_TYPE_MODULE : Nat := 0
def NAME_TYPE_FUNCTION : Nat := 1
def NAME_TYPE_LOCAL : Nat := 2

/-- `ModuleNameSubsection`: the module name, an owned string (held here
as its bytes). -/
structure ModuleNameSubsection where
  name : List Nat
deriving DecidableEq, Repr

/-- `FunctionNameSubsection`: a `NameMap` (= `IndexMap<String>`) from
function indices to names. -/
structure FunctionNameSubsection where
  names : List (Nat × List Nat)
deriving DecidableEq, Repr

/-- `LocalNameSubsection`: an `IndexMap<NameMap>` from function indices
to maps from local indices to names. -/
structure LocalNameSubsection where
  local_names : List (Nat × List (Nat × List Nat))
deriving DecidableEq, Repr

/-- `NameSection`: at most one of each of the three subsections. -/
structure NameSection where
  module : Option ModuleNameSubsection
  functions : Option FunctionNameSubsection
  locals : Option LocalNameSubsection
deriving DecidableEq, Repr

/-- `ModuleNameSubsection::deserialize`: a single string. -/
def ModuleNameSubsection.deserialize : Deser ModuleNameSubsection := do
  let name ← stringDeser
  pure ⟨name⟩

/-- `ModuleNameSubsection::serialize`: the string alone. -/
def ModuleNameSubsection.serialize (s : ModuleNameSubsection) : Except Error (List Nat) :=
  serializeString s.name

/-- `FunctionNameSubsection::deserialize` (`name_section.rs` lines
214-220): an index map bounded by the module's function space. -/
def FunctionNameSubsection.deserialize (m : Module) : Deser FunctionNameSubsection := do
  let names ← deserializeIndexMap m.functions_space stringDeser
  pure ⟨names⟩

/-- `FunctionNameSubsection::serialize`: the name map alone. -/
def FunctionNameSubsection.serialize (s : FunctionNameSubsection) : Except Error (List Nat) :=
  serializeIndexMap serializeString s.names

/-- `LocalNameSubsection::deserialize` (`name_section.rs` lines 251-288):
outer bound = function space; every inner map is deserialized with the
single global bound `max_signature_args + max_locals`, the entry's own
function index being ignored by the closure `deserialize_locals`. -/
def LocalNameSubsection.deserialize (m : Module) : Deser LocalNameSubsection := do
  let max_entry_space := m.functions_space
  let max_space := maxSignatureArgs m + maxLocals m
  let deserialize_locals := fun (_ : Nat) => deserializeIndexMap max_space stringDeser
  let local_names ← deserializeIndexMapWith max_entry_space deserialize_locals
  pure ⟨local_names⟩

/-- `LocalNameSubsection::serialize`: the map of maps alone. -/
def LocalNameSubsection.serialize (s : LocalNameSubsection) : Except Error (List Nat) :=
  serializeIndexMap (serializeIndexMap serializeString) s.local_names

/-- The local helper `serialize_subsection` of `NameSection::serialize`
(`name_section.rs` lines 122-132): the tag byte (`VarUint7`), the payload
length as a `varuint32` (`VarUint32::try_from` fails for lengths not
fitting a `u32`), then the payload. -/
def serialize_subsection (name_type : Nat) (name_payload : List Nat) :
    Except Error (List Nat) :=
  if 2 ^ 32 ≤ name_payload.length then .error .InvalidVarInt32
  else .ok (name_type :: leb128 name_payload.length ++ name_payload)

/-- `NameSection::serialize` (`name_section.rs` lines 118-154): each
present subsection is serialized into a buffer and framed, in the fixed
order module, functions, locals. -/
def NameSection.serialize (ns : NameSection) : Except Error (List Nat) := do
  let b0 ← match ns.module with
    | some s => do
      let buffer ← s.serialize
      serialize_subsection NAME_TYPE_MODULE buffer
    | none => pure []
  let b1 ← match ns.functions with
    | some s => do
      let buffer ← s.serialize
      serialize_subsection NAME_TYPE_FUNCTION buffer
    | none => pure []
  let b2 ← match ns.locals with
    | some s => do
      let buffer ← s.serialize
      serialize_subsection NAME_TYPE_LOCAL buffer
    | none => pure []
  pure (b0 ++ b1 ++ b2)

/-- The subsection loop of `NameSection::deserialize` (`name_section.rs`
lines 72-115).  `fuel` is structural fuel for termination; every
continuing iteration consumes at least the tag byte and one size byte, so
the initial budget `data.length + 1` is never exhausted (fuel `0` is
marked `panic`, and no theorem below relies on that case).  A failing tag
read ends the loop as success (`while let Ok`); every other error
propagates (`?`). -/
def deserializeLoop (m : Module) : Nat → Option ModuleNameSubsection →
    Option FunctionNameSubsection → Option LocalNameSubsection → Deser NameSection
  | 0, _, _, _ => fun _ => .panic
  | fuel + 1, module_name, function_names, local_names => fun c =>
    match varUint7Deser c with
    | .panic => .panic
    | .err _ => .ok (⟨module_name, function_names, local_names⟩, c)
    | .ok (raw_subsection_type, c) =>
      let subsection_type := raw_subsection_type
      match varUint32Deser c with
      | .panic => .panic
      | .err e => .err e
      | .ok (size, c) =>
        if subsection_type = NAME_TYPE_MODULE then
          if module_name.isSome then .err (.DuplicatedNameSubsections NAME_TYPE_FUNCTION)
          else
            match ModuleNameSubsection.deserialize c with
            | .panic => .panic
            | .err e => .err e
            | .ok (s, c) => deserializeLoop m fuel (some s) function_names local_names c
        else if subsection_type = NAME_TYPE_FUNCTION then
          if function_names.isSome then .err (.DuplicatedNameSubsections NAME_TYPE_FUNCTION)
          else
            match FunctionNameSubsection.deserialize m c with
            | .panic => .panic
            | .err e => .err e
            | .ok (s, c) => deserializeLoop m fuel module_name (some s) local_names c
        else if subsection_type = NAME_TYPE_LOCAL then
          if local_names.isSome then .err (.DuplicatedNameSubsections NAME_TYPE_LOCAL)
          else
            match LocalNameSubsection.deserialize m c with
            | .panic => .panic
            | .err e => .err e
            | .ok (s, c) => deserializeLoop m fuel module_name function_names (some s) c
        else
          -- the `usize → i64` conversion of `size` fails only above `i64::MAX`
          if 2 ^ 63 ≤ size then .err .UnexpectedEof
          else
            match c.seek_relative (Int.ofNat size) with
            | .panic => .panic
            | .err e => .err e
            | .ok c =>
              if c.stream_len < c.stream_position then .err .UnexpectedEof
              else deserializeLoop m fuel module_name function_names local_names c

/-- `NameSection::deserialize` (`name_section.rs` lines 68-115). -/
def NameSection.deserialize (m : Module) (c : Cursor) : PRes (NameSection × Cursor) :=
  deserializeLoop m (c.data.length + 1) none none none c

/-! ## Proof infrastructure: exact-consumption and failure predicates -/

/-- `Consumes f bs a`: run at any position whose suffix starts with `bs`,
the deserializer `f` succeeds with `a` and advances exactly past `bs`,
independent of the surrounding bytes. -/
def Consumes {α : Type} (f : Deser α) (bs : List Nat) (a : α) : Prop :=
  ∀ pre post : List Nat,
    f ⟨pre ++ bs ++ post, pre.length⟩ =
      .ok (a, ⟨pre ++ bs ++ post, pre.length + bs.length⟩)

/-- `FailsWith f bs e`: run at any position whose suffix starts with `bs`,
the deserializer `f` returns the error `e`. -/
def FailsWith {α : Type} (f : Deser α) (bs : List Nat) (e : Error) : Prop :=
  ∀ pre post : List Nat, f ⟨pre ++ bs ++ post, pre.length⟩ = .err e

/-- The loop, started on the given accumulators with at least
`bytes.length + 1` fuel and exactly `bytes` remaining, runs to success
with result `ns` at the end of the stream. -/
def RunsToOk (m : Module) (bytes : List Nat) (mn : Option ModuleNameSubsection)
    (fn : Option FunctionNameSubsection) (ln : Option LocalNameSubsection)
    (ns : NameSection) : Prop :=
  ∀ (pre : List Nat) (fuel : Nat), bytes.length < fuel →
    deserializeLoop m fuel mn fn ln ⟨pre ++ bytes, pre.length⟩ =
      .ok (ns, ⟨pre ++ bytes, pre.length + bytes.length⟩)

/-- A name map as the in-memory `IndexMap<String>` maintains it: keys in
strictly ascending order (hence unique), all of `u32` range and below the
validation bound. -/
def NameMapWF (bound : Nat) (nm : List (Nat × List Nat)) : Prop :=
  nm.Pairwise (fun a b => a.1 < b.1) ∧ ∀ e ∈ nm, e.1 < bound ∧ e.1 < 2 ^ 32

/-- The legal index bounds of a name section against a module: function
name keys below the function space; local-name outer keys below the
function space, inner keys below the global local bound the code
computes. -/
def NameSectionBounds (m : Module) (ns : NameSection) : Prop :=
  (∀ f ∈ ns.functions, NameMapWF m.functions_space f.names) ∧
  (∀ l ∈ ns.locals,
    (l.local_names.Pairwise fun a b => a.1 < b.1) ∧
    ∀ e ∈ l.local_names, e.1 < m.functions_space ∧ e.1 < 2 ^ 32 ∧
      NameMapWF (maxSignatureArgs m + maxLocals m) e.2)

/-- The inner local-name bound as the specification text words it — the
maximum, over the module's locally defined functions (function section
entry paired with its code body), of the parameter count of that
function's signature plus the summed declared-local counts of that
function's body.  This definition follows the spec's words, for
comparison with the bound the source actually computes
(`maxSignatureArgs m + maxLocals m`); it is not a translation of any
source function. -/
def specLocalNameInnerBound (m : Module) : Nat :=
  match m.function_section, m.code_section with
  | some fs, some cs =>
    ((fs.zip cs).map fun fb =>
      (match m.type_section with
        | some ts =>
          match ts[fb.1]? with
          | some (.function f) => f.params.length
          | none => 0
        | none => 0) + (fb.2.locals.map fun l => l.count).sum).foldr Nat.max 0
  | _, _ => 0

theorem bind_eq_dbind {α β : Type} (f : Deser α) (g : α → Deser β) :
    f >>= g = dbind f g := rfl

theorem pure_eq_dpure {α : Type} (a : α) : (pure a : Deser α) = dpure a := rfl

theorem consumes_dpure {α : Type} (a : α) : Consumes (dpure a) [] a := by
  intro pre post
  simp [dpure]

theorem consumes_dbind {α β : Type} {f : Deser α} {g : α → Deser β}
    {b1 b2 : List Nat} {a : α} {b : β}
    (hf : Consumes f b1 a) (hg : Consumes (g a) b2 b) :
    Consumes (dbind f g) (b1 ++ b2) b := by
  intro pre post
  have e1 : pre ++ (b1 ++ b2) ++ post = pre ++ b1 ++ (b2 ++ post) := by simp
  have h2 := hg (pre ++ b1) post
  simp only [dbind, e1, hf pre (b2 ++ post)]
  simpa [List.append_assoc, Nat.add_assoc] using h2

theorem fails_dbind {α β : Type} {f : Deser α} {g : α → Deser β}
    {b1 b2 : List Nat} {a : α} {e : Error}
    (hf : Consumes f b1 a) (hg : FailsWith (g a) b2 e) :
    FailsWith (dbind f g) (b1 ++ b2) e := by
  intro pre post
  have e1 : pre ++ (b1 ++ b2) ++ post = pre ++ b1 ++ (b2 ++ post) := by simp
  have h2 := hg (pre ++ b1) post
  simp only [dbind, e1, hf pre (b2 ++ post)]
  simpa [List.append_assoc] using h2

theorem fails_dthrow {α : Type} (bs : List Nat) (e : Error) :
    FailsWith (dthrow (α := α) e) bs e := by
  intro pre post
  simp [dthrow]

/-- A failure surfaces for any byte list extending the consumed prefix. -/
theorem failsWith_of_prefix {α : Type} {f : Deser α} {bs tail : List Nat} {e : Error}
    (h : FailsWith f bs e) : FailsWith f (bs ++ tail) e := by
  intro pre post
  have := h pre (tail ++ post)
  simpa [List.append_assoc] using this

theorem consumes_readN (bs : List Nat) : Consumes (readN bs.length) bs bs := by
  intro pre post
  have hlen : (pre ++ bs ++ post).length = pre.length + (bs.length + post.length) := by
    simp [Nat.add_assoc]
  have hdrop : (pre ++ bs ++ post).drop pre.length = bs ++ post := by
    rw [List.append_assoc]
    exact List.drop_left pre (bs ++ post)
  simp only [readN, Cursor.read, hlen, hdrop]
  rw [if_neg (by omega), if_neg (by omega)]
  simp [List.take_left]

theorem consumes_readByte (b : Nat) : Consumes readByte [b] b := by
  intro pre post
  have hlen : (pre ++ [b] ++ post).length = pre.length + (1 + post.length) := by
    simp only [List.length_append, List.length_cons, List.length_nil]
    omega
  have hdrop : (pre ++ [b] ++ post).drop pre.length = b :: post := by
    rw [List.append_assoc]
    exact List.drop_left pre ([b] ++ post)
  simp only [readByte, Cursor.read, hlen, hdrop]
  rw [if_neg (by omega), if_neg (by omega)]
  simp [Nat.add_comm]

/-! ## The varint codec round-trips -/

theorem leb128Aux_eq : ∀ (f₁ f₂ n : Nat), n < 128 ^ f₁ → n < 128 ^ f₂ →
    leb128Aux f₁ n = leb128Aux f₂ n := by
  intro f₁
  induction f₁ with
  | zero =>
    intro f₂ n h1 h2
    have hn : n = 0 := by simpa using h1
    subst hn
    cases f₂ with
    | zero => rfl
    | succ g => simp [leb128Aux]
  | succ f IH =>
    intro f₂ n h1 h2
    by_cases hlt : n < 128
    · cases f₂ with
      | zero =>
        have hn : n = 0 := by simpa using h2
        subst hn
        simp [leb128Aux]
      | succ g => simp [leb128Aux, hlt]
    · cases f₂ with
      | zero =>
        have : n = 0 := by simpa using h2
        omega
      | succ g =>
        simp only [leb128Aux, if_neg hlt]
        have hd1 : n / 128 < 128 ^ f := by
          rw [Nat.div_lt_iff_lt_mul (by norm_num)]
          calc n < 128 ^ (f + 1) := h1
            _ = 128 ^ f * 128 := by ring
        have hd2 : n / 128 < 128 ^ g := by
          rw [Nat.div_lt_iff_lt_mul (by norm_num)]
          calc n < 128 ^ (g + 1) := h2
            _ = 128 ^ g * 128 := by ring
        rw [IH g (n / 128) hd1 hd2]

theorem lt_pow128_self (n : Nat) : n < 128 ^ (n + 1) := by
  calc n < 2 ^ n := Nat.lt_two_pow n
    _ ≤ 128 ^ n := Nat.pow_le_pow_left (by norm_num) n
    _ ≤ 128 ^ (n + 1) := Nat.pow_le_pow_right (by norm_num) (Nat.le_succ n)

theorem leb128_lt {n : Nat} (h : n < 128) : leb128 n = [n] := by
  simp [leb128, leb128Aux, h]

theorem leb128_ge {n : Nat} (h : 128 ≤ n) :
    leb128 n = (n % 128 + 128) :: leb128 (n / 128) := by
  have h0 : leb128 n = leb128Aux (n + 1) n := rfl
  rw [h0]
  simp only [leb128Aux, if_neg (by omega : ¬n < 128)]
  rw [leb128]
  have h1 : n / 128 < 128 ^ n := by
    have hn : n / 128 < n := Nat.div_lt_self (by omega) (by norm_num)
    have h2n : n < 2 ^ n := Nat.lt_two_pow n
    have hle : (2 : Nat) ^ n ≤ 128 ^ n := Nat.pow_le_pow_left (by norm_num) n
    omega
  have h2 : n / 128 < 128 ^ (n / 128 + 1) := lt_pow128_self _
  rw [leb128Aux_eq n (n / 128 + 1) (n / 128) h1 h2]

theorem varUint32Go_consumes (n : Nat) :
    ∀ res shift fuel : Nat, n < 2 ^ (32 - shift) → res < 2 ^ shift → shift ≤ 31 →
      32 ≤ shift + 7 * fuel →
      Consumes (varUint32Go fuel res shift) (leb128 n) (res + n * 2 ^ shift) := by
  induction n using Nat.strong_induction_on with
  | _ n IH =>
    intro res shift fuel h1 h2 h3 h4
    match fuel with
    | 0 => omega
    | fuel + 1 =>
      have hres : res + n * 2 ^ shift < 2 ^ 32 := by
        have hmul : (n + 1) * 2 ^ shift ≤ 2 ^ (32 - shift) * 2 ^ shift :=
          Nat.mul_le_mul_right _ (by omega)
        have hpow : 2 ^ (32 - shift) * 2 ^ shift = 2 ^ 32 := by
          rw [← Nat.pow_add]
          congr 1
          omega
        calc res + n * 2 ^ shift < 2 ^ shift + n * 2 ^ shift := by omega
          _ = (n + 1) * 2 ^ shift := by ring
          _ ≤ 2 ^ 32 := by omega
      simp only [varUint32Go, if_neg (by omega : ¬31 < shift), bind_eq_dbind]
      by_cases hlt : n < 128
      · rw [leb128_lt hlt]
        have hstep : Consumes (dbind readByte fun b =>
            letI res' := (res + b % 128 * 2 ^ shift) % 2 ^ 32
            if b < 128 then pure res' else varUint32Go fuel res' (shift + 7))
            ([n] ++ []) (res + n * 2 ^ shift) := by
          refine consumes_dbind (consumes_readByte n) ?_
          have hmod : (res + n % 128 * 2 ^ shift) % 2 ^ 32 = res + n * 2 ^ shift := by
            rw [Nat.mod_eq_of_lt hlt, Nat.mod_eq_of_lt hres]
          simp only [if_pos hlt, hmod, pure_eq_dpure]
          exact consumes_dpure _
        simpa using hstep
      · rw [leb128_ge (by omega)]
        have h32 : 7 < 32 - shift := by
          have : (128 : Nat) ≤ 2 ^ (32 - shift) := le_trans (by omega) (Nat.le_of_lt h1)
          by_contra hc
          have hle : 32 - shift ≤ 7 := by omega
          have : (2 : Nat) ^ (32 - shift) ≤ 2 ^ 7 := Nat.pow_le_pow_right (by norm_num) hle
          omega
        have hres' : res + n % 128 * 2 ^ shift < 2 ^ (shift + 7) := by
          have hm : n % 128 < 128 := Nat.mod_lt _ (by norm_num)
          have : res + n % 128 * 2 ^ shift < 2 ^ shift + 127 * 2 ^ shift := by
            have : n % 128 * 2 ^ shift ≤ 127 * 2 ^ shift :=
              Nat.mul_le_mul_right _ (by omega)
            omega
          calc res + n % 128 * 2 ^ shift < 2 ^ shift + 127 * 2 ^ shift := this
            _ = 128 * 2 ^ shift := by ring
            _ = 2 ^ (shift + 7) := by rw [Nat.pow_add]; ring
        have hdiv : n / 128 < 2 ^ (32 - (shift + 7)) := by
          rw [Nat.div_lt_iff_lt_mul (by norm_num)]
          calc n < 2 ^ (32 - shift) := h1
            _ = 2 ^ (32 - (shift + 7)) * 128 := by
                rw [show (128 : Nat) = 2 ^ 7 by norm_num, ← Nat.pow_add]
                congr 1
                omega
        have hrec := IH (n / 128) (Nat.div_lt_self (by omega) (by norm_num))
          (res + n % 128 * 2 ^ shift) (shift + 7) fuel hdiv hres' (by omega) (by omega)
        have hval : res + n % 128 * 2 ^ shift + n / 128 * 2 ^ (shift + 7)
            = res + n * 2 ^ shift := by
          have : n % 128 + 128 * (n / 128) = n := Nat.mod_add_div n 128
          calc res + n % 128 * 2 ^ shift + n / 128 * 2 ^ (shift + 7)
              = res + (n % 128 + 128 * (n / 128)) * 2 ^ shift := by
                rw [Nat.pow_add]
                ring
            _ = res + n * 2 ^ shift := by rw [this]
        have hstep : Consumes (dbind readByte fun b =>
            letI res' := (res + b % 128 * 2 ^ shift) % 2 ^ 32
            if b < 128 then pure res' else varUint32Go fuel res' (shift + 7))
            ([n % 128 + 128] ++ leb128 (n / 128)) (res + n * 2 ^ shift) := by
          refine consumes_dbind (consumes_readByte (n % 128 + 128)) ?_
          have hb : ¬(n % 128 + 128 < 128) := by omega
          have hbmod : (n % 128 + 128) % 128 = n % 128 := by omega
          have hmod2 : (res + n % 128 * 2 ^ shift) % 2 ^ 32
              = res + n % 128 * 2 ^ shift := by
            refine Nat.mod_eq_of_lt ?_
            calc res + n % 128 * 2 ^ shift < 2 ^ (shift + 7) := hres'
              _ ≤ 2 ^ 32 := Nat.pow_le_pow_right (by norm_num) (by omega)
          simp only [if_neg hb, hbmod, hmod2]
          exact hval ▸ hrec
        simpa using hstep
      -- done with both byte cases

theorem consumes_varUint32 {n : Nat} (h : n < 2 ^ 32) :
    Consumes varUint32Deser (leb128 n) n := by
  have := varUint32Go_consumes n 0 0 6 (by simpa using h) (by norm_num)
    (by norm_num) (by norm_num)
  simpa using this

theorem consumes_stringDeser {s : List Nat} (h : s.length < 2 ^ 32) :
    Consumes stringDeser (leb128 s.length ++ s) s := by
  have hstep : Consumes (dbind varUint32Deser fun n => readN n)
      (leb128 s.length ++ s) s :=
    consumes_dbind (consumes_varUint32 h) (consumes_readN s)
  simpa [stringDeser, bind_eq_dbind] using hstep

theorem string_serialize_consumes {s bs : List Nat}
    (h : serializeString s = .ok bs) : Consumes stringDeser bs s := by
  unfold serializeString at h
  split at h
  · cases h
  · cases h
    exact consumes_stringDeser (by omega)

/-! ## The index-map round-trip and bound rejection -/

@[simp] theorem except_bind_ok {ε α β : Type} (a : α) (f : α → Except ε β) :
    (Except.ok a >>= f) = f a := rfl

@[simp] theorem except_bind_err {ε α β : Type} (e : ε) (f : α → Except ε β) :
    ((Except.error e : Except ε α) >>= f) = .error e := rfl

@[simp] theorem except_map_ok {ε α β : Type} (a : α) (f : α → β) :
    (f <$> (Except.ok a : Except ε α)) = .ok (f a) := rfl

@[simp] theorem except_map_err {ε α β : Type} (e : ε) (f : α → β) :
    (f <$> (Except.error e : Except ε α)) = .error e := rfl

theorem consumes_deserEntries {α : Type} (bound : Nat) (deserV : Nat → Deser α)
    (serV : α → Except Error (List Nat)) :
    ∀ (entries acc : List (Nat × α)) (body : List Nat),
      serializeEntries serV entries = .ok body →
      entries.Pairwise (fun a b => a.1 < b.1) →
      (∀ e ∈ entries, e.1 < bound ∧ e.1 < 2 ^ 32) →
      (∀ e ∈ entries, e.1 ∉ acc.map Prod.fst) →
      (∀ e ∈ entries, ∀ bs, serV e.2 = .ok bs → Consumes (deserV e.1) bs e.2) →
      Consumes (deserEntries bound deserV entries.length acc) body (acc ++ entries) := by
  intro entries
  induction entries with
  | nil =>
    intro acc body hser _ _ _ _
    simp only [serializeEntries] at hser
    cases hser
    simpa [deserEntries, pure_eq_dpure] using consumes_dpure acc
  | cons e rest IH =>
    obtain ⟨k, v⟩ := e
    intro acc body hser hsort hbd hacc hvals
    rcases h1 : serV v with e1 | vb
    · simp [serializeEntries, h1] at hser
    rcases h2 : serializeEntries serV rest with e2 | rb
    · simp [serializeEntries, h1, h2] at hser
    have hbody : body = leb128 k ++ (vb ++ rb) := by
      have := hser
      simp [serializeEntries, h1, h2] at this
      simp [← this, List.append_assoc]
    subst hbody
    have hk := hbd (k, v) (by simp)
    have hkacc := hacc (k, v) (by simp)
    have hhead := hvals (k, v) (by simp) vb h1
    have hrest_sort : rest.Pairwise (fun a b => a.1 < b.1) := hsort.of_cons
    have hhead_lt : ∀ e ∈ rest, k < e.1 := by
      intro e he
      exact (List.pairwise_cons.mp hsort).1 e he
    have hstep : Consumes (deserEntries bound deserV (rest.length + 1) acc)
        (leb128 k ++ (vb ++ rb)) (acc ++ (k, v) :: rest) := by
      simp only [deserEntries, bind_eq_dbind]
      refine consumes_dbind (consumes_varUint32 hk.2) ?_
      rw [if_neg (by omega : ¬bound ≤ k), if_neg hkacc]
      refine consumes_dbind hhead ?_
      have hrec := IH (acc ++ [(k, v)]) rb h2 hrest_sort
        (fun e he => hbd e (by simp [he]))
        (fun e he => by
          have h3 := hacc e (by simp [he])
          have h4 := hhead_lt e he
          simp only [List.map_append, List.map_cons, List.map_nil, List.mem_append,
            List.mem_cons, List.not_mem_nil] at h3 ⊢
          rintro (h5 | h5)
          · exact h3 h5
          · simp at h5
            omega)
        (fun e he bs hbs => hvals e (by simp [he]) bs hbs)
      simpa [List.append_assoc] using hrec
    simpa [List.length_cons] using hstep

theorem fails_deserEntries_oob {α : Type} (bound : Nat) (deserV : Nat → Deser α)
    (serV : α → Except Error (List Nat)) :
    ∀ (entries acc : List (Nat × α)) (body : List Nat),
      serializeEntries serV entries = .ok body →
      entries.Pairwise (fun a b => a.1 < b.1) →
      (∀ e ∈ entries, e.1 < 2 ^ 32) →
      (∀ e ∈ entries, e.1 ∉ acc.map Prod.fst) →
      (∀ e ∈ entries, ∀ bs, serV e.2 = .ok bs → Consumes (deserV e.1) bs e.2) →
      (∃ e ∈ entries, bound ≤ e.1) →
      FailsWith (deserEntries bound deserV entries.length acc) body .OutOfBoundsIndex := by
  intro entries
  induction entries with
  | nil =>
    intro acc body _ _ _ _ _ hex
    simp at hex
  | cons e rest IH =>
    obtain ⟨k, v⟩ := e
    intro acc body hser hsort h32 hacc hvals hex
    rcases h1 : serV v with e1 | vb
    · simp [serializeEntries, h1] at hser
    rcases h2 : serializeEntries serV rest with e2 | rb
    · simp [serializeEntries, h1, h2] at hser
    have hbody : body = leb128 k ++ (vb ++ rb) := by
      have := hser
      simp [serializeEntries, h1, h2] at this
      simp [← this, List.append_assoc]
    subst hbody
    have hk32 := h32 (k, v) (by simp)
    simp only [List.length_cons, deserEntries, bind_eq_dbind]
    by_cases hko : bound ≤ k
    · refine fails_dbind (consumes_varUint32 hk32) ?_
      rw [if_pos hko]
      exact fails_dthrow _ _
    · have hkacc := hacc (k, v) (by simp)
      have hhead := hvals (k, v) (by simp) vb h1
      have hhead_lt : ∀ e ∈ rest, k < e.1 := by
        intro e he
        exact (List.pairwise_cons.mp hsort).1 e he
      have hex' : ∃ e ∈ rest, bound ≤ e.1 := by
        rcases hex with ⟨e, he, hbe⟩
        rcases List.mem_cons.mp he with h | h
        · subst h
          omega
        · exact ⟨e, h, hbe⟩
      refine fails_dbind (consumes_varUint32 hk32) ?_
      rw [if_neg hko, if_neg hkacc]
      refine fails_dbind hhead ?_
      exact IH (acc ++ [(k, v)]) rb h2 hsort.of_cons
        (fun e he => h32 e (by simp [he]))
        (fun e he => by
          have h3 := hacc e (by simp [he])
          have h4 := hhead_lt e he
          simp only [List.map_append, List.map_cons, List.map_nil, List.mem_append,
            List.mem_cons, List.not_mem_nil] at h3 ⊢
          rintro (h5 | h5)
          · exact h3 h5
          · simp at h5
            omega)
        (fun e he bs hbs => hvals e (by simp [he]) bs hbs)
        hex'

theorem consumes_deserializeIndexMapWith {α : Type} {bound : Nat}
    {deserV : Nat → Deser α} {serV : α → Except Error (List Nat)}
    {entries : List (Nat × α)} {bytes : List Nat}
    (hser : serializeIndexMap serV entries = .ok bytes)
    (hsort : entries.Pairwise (fun a b => a.1 < b.1))
    (hbd : ∀ e ∈ entries, e.1 < bound ∧ e.1 < 2 ^ 32)
    (hvals : ∀ e ∈ entries, ∀ bs, serV e.2 = .ok bs → Consumes (deserV e.1) bs e.2) :
    Consumes (deserializeIndexMapWith bound deserV) bytes entries := by
  unfold serializeIndexMap at hser
  split at hser
  · simp at hser
  rcases h2 : serializeEntries serV entries with e2 | body
  · simp [h2] at hser
  have hbytes : bytes = leb128 entries.length ++ body := by
    have := hser
    simp [h2] at this
    simp [← this]
  subst hbytes
  have hstep : Consumes (dbind varUint32Deser fun count =>
      deserEntries bound deserV count [])
      (leb128 entries.length ++ body) entries := by
    refine consumes_dbind (consumes_varUint32 (by omega)) ?_
    simpa using consumes_deserEntries bound deserV serV entries [] body h2 hsort hbd
      (by simp) hvals
  simpa [deserializeIndexMapWith, bind_eq_dbind] using hstep

theorem fails_deserializeIndexMapWith_oob {α : Type} {bound : Nat}
    {deserV : Nat → Deser α} {serV : α → Except Error (List Nat)}
    {entries : List (Nat × α)} {bytes : List Nat}
    (hser : serializeIndexMap serV entries = .ok bytes)
    (hsort : entries.Pairwise (fun a b => a.1 < b.1))
    (h32 : ∀ e ∈ entries, e.1 < 2 ^ 32)
    (hvals : ∀ e ∈ entries, ∀ bs, serV e.2 = .ok bs → Consumes (deserV e.1) bs e.2)
    (hex : ∃ e ∈ entries, bound ≤ e.1) :
    FailsWith (deserializeIndexMapWith bound deserV) bytes .OutOfBoundsIndex := by
  unfold serializeIndexMap at hser
  split at hser
  · simp at hser
  rcases h2 : serializeEntries serV entries with e2 | body
  · simp [h2] at hser
  have hbytes : bytes = leb128 entries.length ++ body := by
    have := hser
    simp [h2] at this
    simp [← this]
  subst hbytes
  have hstep : FailsWith (dbind varUint32Deser fun count =>
      deserEntries bound deserV count []) (leb128 entries.length ++ body)
      .OutOfBoundsIndex := by
    refine fails_dbind (consumes_varUint32 (by omega)) ?_
    simpa using fails_deserEntries_oob bound deserV serV entries [] body h2 hsort h32
      (by simp) hvals hex
  simpa [deserializeIndexMapWith, bind_eq_dbind] using hstep

/-! ## One-iteration lemmas for the subsection loop -/

/-- A fresh iteration at the end of the stream: the tag read fails and the
`while let` loop ends as success with the subsections recorded so far. -/
theorem loop_terminal (m : Module) (fuel : Nat) (mn : Option ModuleNameSubsection)
    (fn : Option FunctionNameSubsection) (ln : Option LocalNameSubsection) (c : Cursor)
    (h : c.pos = c.data.length) :
    deserializeLoop m (fuel + 1) mn fn ln c = .ok (⟨mn, fn, ln⟩, c) := by
  have hread : varUint7Deser c = .err .UnexpectedEof := by
    simp [varUint7Deser, readByte, Cursor.read, h]
  simp [deserializeLoop, hread]

/-- One iteration over a well-formed module-name frame, starting with no
module name recorded: the subsection is parsed and recorded, and the loop
continues right after the frame. -/
theorem loop_step_module (m : Module) (fuel : Nat)
    (fn : Option FunctionNameSubsection) (ln : Option LocalNameSubsection)
    (pre payload post : List Nat) (s : ModuleNameSubsection)
    (hplen : payload.length < 2 ^ 32)
    (hcons : Consumes ModuleNameSubsection.deserialize payload s) :
    deserializeLoop m (fuel + 1) none fn ln
        ⟨pre ++ (NAME_TYPE_MODULE :: (leb128 payload.length ++ payload)) ++ post, pre.length⟩
      = deserializeLoop m fuel (some s) fn ln
        ⟨pre ++ (NAME_TYPE_MODULE :: (leb128 payload.length ++ payload)) ++ post,
          pre.length + (1 + ((leb128 payload.length).length + payload.length))⟩ := by
  have h7 := consumes_readByte NAME_TYPE_MODULE pre (leb128 payload.length ++ payload ++ post)
  have h32 := consumes_varUint32 hplen (pre ++ [NAME_TYPE_MODULE]) (payload ++ post)
  have hbody := hcons (pre ++ [NAME_TYPE_MODULE] ++ leb128 payload.length) post
  simp only [NAME_TYPE_MODULE, NAME_TYPE_FUNCTION, NAME_TYPE_LOCAL, List.append_assoc,
    List.cons_append, List.nil_append, List.singleton_append, List.length_append,
    List.length_cons, List.length_nil, Nat.zero_add, Nat.add_zero] at h7 h32 hbody ⊢
  rw [show pre.length + ((leb128 payload.length).length + 1)
      = pre.length + 1 + (leb128 payload.length).length from by omega] at hbody
  rw [deserializeLoop]
  simp only [varUint7Deser, h7, h32, hbody, Option.isSome_none, Bool.false_eq_true,
    if_false, if_true, NAME_TYPE_MODULE, NAME_TYPE_FUNCTION, NAME_TYPE_LOCAL]
  congr 1
  simp only [Cursor.mk.injEq, true_and]
  omega

/-- One iteration over a well-formed function-names frame, starting with
no function names recorded. -/
theorem loop_step_function (m : Module) (fuel : Nat)
    (mn : Option ModuleNameSubsection) (ln : Option LocalNameSubsection)
    (pre payload post : List Nat) (s : FunctionNameSubsection)
    (hplen : payload.length < 2 ^ 32)
    (hcons : Consumes (FunctionNameSubsection.deserialize m) payload s) :
    deserializeLoop m (fuel + 1) mn none ln
        ⟨pre ++ (NAME_TYPE_FUNCTION :: (leb128 payload.length ++ payload)) ++ post, pre.length⟩
      = deserializeLoop m fuel mn (some s) ln
        ⟨pre ++ (NAME_TYPE_FUNCTION :: (leb128 payload.length ++ payload)) ++ post,
          pre.length + (1 + ((leb128 payload.length).length + payload.length))⟩ := by
  have h7 := consumes_readByte NAME_TYPE_FUNCTION pre (leb128 payload.length ++ payload ++ post)
  have h32 := consumes_varUint32 hplen (pre ++ [NAME_TYPE_FUNCTION]) (payload ++ post)
  have hbody := hcons (pre ++ [NAME_TYPE_FUNCTION] ++ leb128 payload.length) post
  simp only [NAME_TYPE_MODULE, NAME_TYPE_FUNCTION, NAME_TYPE_LOCAL, List.append_assoc,
    List.cons_append, List.nil_append, List.singleton_append, List.length_append,
    List.length_cons, List.length_nil, Nat.zero_add, Nat.add_zero] at h7 h32 hbody ⊢
  rw [show pre.length + ((leb128 payload.length).length + 1)
      = pre.length + 1 + (leb128 payload.length).length from by omega] at hbody
  rw [deserializeLoop]
  simp only [varUint7Deser, h7, h32, hbody, Option.isSome_none, Bool.false_eq_true,
    if_false, if_true, NAME_TYPE_MODULE, NAME_TYPE_FUNCTION, NAME_TYPE_LOCAL,
    Nat.one_ne_zero, eq_self_iff_true]
  congr 1
  simp only [Cursor.mk.injEq, true_and]
  omega

/-- One iteration over a well-formed local-names frame, starting with no
local names recorded. -/
theorem loop_step_local (m : Module) (fuel : Nat)
    (mn : Option ModuleNameSubsection) (fn : Option FunctionNameSubsection)
    (pre payload post : List Nat) (s : LocalNameSubsection)
    (hplen : payload.length < 2 ^ 32)
    (hcons : Consumes (LocalNameSubsection.deserialize m) payload s) :
    deserializeLoop m (fuel + 1) mn fn none
        ⟨pre ++ (NAME_TYPE_LOCAL :: (leb128 payload.length ++ payload)) ++ post, pre.length⟩
      = deserializeLoop m fuel mn fn (some s)
        ⟨pre ++ (NAME_TYPE_LOCAL :: (leb128 payload.length ++ payload)) ++ post,
          pre.length + (1 + ((leb128 payload.length).length + payload.length))⟩ := by
  have h7 := consumes_readByte NAME_TYPE_LOCAL pre (leb128 payload.length ++ payload ++ post)
  have h32 := consumes_varUint32 hplen (pre ++ [NAME_TYPE_LOCAL]) (payload ++ post)
  have hbody := hcons (pre ++ [NAME_TYPE_LOCAL] ++ leb128 payload.length) post
  simp only [NAME_TYPE_MODULE, NAME_TYPE_FUNCTION, NAME_TYPE_LOCAL, List.append_assoc,
    List.cons_append, List.nil_append, List.singleton_append, List.length_append,
    List.length_cons, List.length_nil, Nat.zero_add, Nat.add_zero] at h7 h32 hbody ⊢
  rw [show pre.length + ((leb128 payload.length).length + 1)
      = pre.length + 1 + (leb128 payload.length).length from by omega] at hbody
  rw [deserializeLoop]
  simp only [varUint7Deser, h7, h32, hbody, Option.isSome_none, Bool.false_eq_true,
    if_false, if_true, show ((2 : Nat) = 0) = False from by simp,
    show ((2 : Nat) = 1) = False from by simp,
    show ((2 : Nat) = 2) = True from by simp, NAME_TYPE_MODULE, NAME_TYPE_FUNCTION,
    NAME_TYPE_LOCAL]
  congr 1
  simp only [Cursor.mk.injEq, true_and]
  omega

/-- A second module-name frame while one is already recorded: the loop
fails with `DuplicatedNameSubsections NAME_TYPE_FUNCTION` (the tag the
source hard-codes in this branch). -/
theorem loop_dup_module (m : Module) (fuel : Nat) (s0 : ModuleNameSubsection)
    (fn : Option FunctionNameSubsection) (ln : Option LocalNameSubsection)
    (pre post : List Nat) (sz : Nat) (hsz : sz < 2 ^ 32) :
    deserializeLoop m (fuel + 1) (some s0) fn ln
        ⟨pre ++ (NAME_TYPE_MODULE :: leb128 sz) ++ post, pre.length⟩
      = .err (.DuplicatedNameSubsections NAME_TYPE_FUNCTION) := by
  have h7 := consumes_readByte NAME_TYPE_MODULE pre (leb128 sz ++ post)
  have h32 := consumes_varUint32 hsz (pre ++ [NAME_TYPE_MODULE]) post
  simp only [NAME_TYPE_MODULE, NAME_TYPE_FUNCTION, List.append_assoc, List.cons_append,
    List.nil_append, List.singleton_append, List.length_append, List.length_cons,
    List.length_nil, Nat.zero_add, Nat.add_zero] at h7 h32 ⊢
  rw [deserializeLoop]
  simp [varUint7Deser, h7, h32, NAME_TYPE_MODULE, NAME_TYPE_FUNCTION]

/-- A second function-names frame while one is already recorded. -/
theorem loop_dup_function (m : Module) (fuel : Nat)
    (mn : Option ModuleNameSubsection) (s0 : FunctionNameSubsection)
    (ln : Option LocalNameSubsection)
    (pre post : List Nat) (sz : Nat) (hsz : sz < 2 ^ 32) :
    deserializeLoop m (fuel + 1) mn (some s0) ln
        ⟨pre ++ (NAME_TYPE_FUNCTION :: leb128 sz) ++ post, pre.length⟩
      = .err (.DuplicatedNameSubsections NAME_TYPE_FUNCTION) := by
  have h7 := consumes_readByte NAME_TYPE_FUNCTION pre (leb128 sz ++ post)
  have h32 := consumes_varUint32 hsz (pre ++ [NAME_TYPE_FUNCTION]) post
  simp only [NAME_TYPE_MODULE, NAME_TYPE_FUNCTION, List.append_assoc, List.cons_append,
    List.nil_append, List.singleton_append, List.length_append, List.length_cons,
    List.length_nil, Nat.zero_add, Nat.add_zero] at h7 h32 ⊢
  rw [deserializeLoop]
  simp [varUint7Deser, h7, h32, NAME_TYPE_MODULE, NAME_TYPE_FUNCTION]

/-- A second local-names frame while one is already recorded. -/
theorem loop_dup_local (m : Module) (fuel : Nat)
    (mn : Option ModuleNameSubsection) (fn : Option FunctionNameSubsection)
    (s0 : LocalNameSubsection)
    (pre post : List Nat) (sz : Nat) (hsz : sz < 2 ^ 32) :
    deserializeLoop m (fuel + 1) mn fn (some s0)
        ⟨pre ++ (NAME_TYPE_LOCAL :: leb128 sz) ++ post, pre.length⟩
      = .err (.DuplicatedNameSubsections NAME_TYPE_LOCAL) := by
  have h7 := consumes_readByte NAME_TYPE_LOCAL pre (leb128 sz ++ post)
  have h32 := consumes_varUint32 hsz (pre ++ [NAME_TYPE_LOCAL]) post
  simp only [NAME_TYPE_MODULE, NAME_TYPE_FUNCTION, NAME_TYPE_LOCAL, List.append_assoc,
    List.cons_append, List.nil_append, List.singleton_append, List.length_append,
    List.length_cons, List.length_nil, Nat.zero_add, Nat.add_zero] at h7 h32 ⊢
  rw [deserializeLoop]
  simp [varUint7Deser, h7, h32, NAME_TYPE_MODULE, NAME_TYPE_FUNCTION, NAME_TYPE_LOCAL]

/-- An unrecognized tag whose declared size exceeds the bytes remaining
after the size field: the skip seek lands past the end of the stream and
the explicit position check turns this into `UnexpectedEof`. -/
theorem loop_skip_eof (m : Module) (fuel : Nat)
    (mn : Option ModuleNameSubsection) (fn : Option FunctionNameSubsection)
    (ln : Option LocalNameSubsection) (pre rest : List Nat) (tag sz : Nat)
    (htagb : tag < 256)
    (htag0 : tag ≠ NAME_TYPE_MODULE) (htag1 : tag ≠ NAME_TYPE_FUNCTION)
    (htag2 : tag ≠ NAME_TYPE_LOCAL)
    (hsz : sz < 2 ^ 32) (hrest : rest.length < sz)
    (hfit : pre.length + 1 + (leb128 sz).length + sz ≤ USIZE_MAX) :
    deserializeLoop m (fuel + 1) mn fn ln
        ⟨pre ++ (tag :: (leb128 sz ++ rest)), pre.length⟩ = .err .UnexpectedEof := by
  have h7 := consumes_readByte tag pre (leb128 sz ++ rest)
  have h32 := consumes_varUint32 hsz (pre ++ [tag]) rest
  simp only [List.append_assoc, List.cons_append, List.nil_append, List.singleton_append,
    List.length_append, List.length_cons, List.length_nil, Nat.zero_add,
    Nat.add_zero] at h7 h32 ⊢
  rw [deserializeLoop]
  simp only [varUint7Deser, h7, h32]
  rw [if_neg htag0, if_neg htag1, if_neg htag2,
    if_neg (by omega : ¬2 ^ 63 ≤ sz)]
  have hseek : Cursor.seek_relative
      ⟨pre ++ tag :: (leb128 sz ++ rest), pre.length + 1 + (leb128 sz).length⟩
      (Int.ofNat sz)
      = .ok ⟨pre ++ tag :: (leb128 sz ++ rest),
          pre.length + 1 + (leb128 sz).length + sz⟩ := by
    unfold Cursor.seek_relative
    rw [if_neg (by simp),
      if_neg (by
        simp only [show (Int.ofNat sz).toNat = sz from rfl, USIZE_MAX] at hfit ⊢
        omega)]
    simp
  simp only [hseek]
  rw [if_pos]
  simp only [Cursor.stream_len, Cursor.stream_position, List.length_append,
    List.length_cons, List.length_append]
  omega


/-! ## Chaining the loop over a sequence of frames -/

theorem runsToOk_nil (m : Module) (mn : Option ModuleNameSubsection)
    (fn : Option FunctionNameSubsection) (ln : Option LocalNameSubsection) :
    RunsToOk m [] mn fn ln ⟨mn, fn, ln⟩ := by
  intro pre fuel hf
  match fuel, hf with
  | fuel + 1, _ =>
    have := loop_terminal m fuel mn fn ln ⟨pre ++ [], pre.length⟩ (by simp)
    simpa using this

theorem runsToOk_cons_module (m : Module) (fn : Option FunctionNameSubsection)
    (ln : Option LocalNameSubsection) (payload rest : List Nat)
    (s : ModuleNameSubsection) (ns : NameSection)
    (hplen : payload.length < 2 ^ 32)
    (hcons : Consumes ModuleNameSubsection.deserialize payload s)
    (hrest : RunsToOk m rest (some s) fn ln ns) :
    RunsToOk m ((NAME_TYPE_MODULE :: (leb128 payload.length ++ payload)) ++ rest)
      none fn ln ns := by
  intro pre fuel hf
  match fuel with
  | fuel + 1 =>
    have hstep := loop_step_module m fuel fn ln pre payload rest s hplen hcons
    have hrest' := hrest (pre ++ (NAME_TYPE_MODULE :: (leb128 payload.length ++ payload)))
      fuel (by
        simp only [List.length_append, List.length_cons, List.length_nil] at hf ⊢
        omega)
    simp only [List.append_assoc, List.cons_append, List.nil_append,
      List.length_append, List.length_cons, List.length_nil,
      Nat.zero_add, Nat.add_zero] at hstep hrest' ⊢
    rw [hstep]
    rw [show pre.length + (1 + ((leb128 payload.length).length + payload.length))
        = pre.length + ((leb128 payload.length).length + payload.length + 1) from by omega]
    rw [hrest']
    simp only [PRes.ok.injEq, Prod.mk.injEq, Cursor.mk.injEq, eq_self_iff_true, true_and]
    omega

theorem runsToOk_cons_function (m : Module) (mn : Option ModuleNameSubsection)
    (ln : Option LocalNameSubsection) (payload rest : List Nat)
    (s : FunctionNameSubsection) (ns : NameSection)
    (hplen : payload.length < 2 ^ 32)
    (hcons : Consumes (FunctionNameSubsection.deserialize m) payload s)
    (hrest : RunsToOk m rest mn (some s) ln ns) :
    RunsToOk m ((NAME_TYPE_FUNCTION :: (leb128 payload.length ++ payload)) ++ rest)
      mn none ln ns := by
  intro pre fuel hf
  match fuel with
  | fuel + 1 =>
    have hstep := loop_step_function m fuel mn ln pre payload rest s hplen hcons
    have hrest' := hrest (pre ++ (NAME_TYPE_FUNCTION :: (leb128 payload.length ++ payload)))
      fuel (by
        simp only [List.length_append, List.length_cons, List.length_nil] at hf ⊢
        omega)
    simp only [List.append_assoc, List.cons_append, List.nil_append,
      List.length_append, List.length_cons, List.length_nil,
      Nat.zero_add, Nat.add_zero] at hstep hrest' ⊢
    rw [hstep]
    rw [show pre.length + (1 + ((leb128 payload.length).length + payload.length))
        = pre.length + ((leb128 payload.length).length + payload.length + 1) from by omega]
    rw [hrest']
    simp only [PRes.ok.injEq, Prod.mk.injEq, Cursor.mk.injEq, eq_self_iff_true, true_and]
    omega

theorem runsToOk_cons_local (m : Module) (mn : Option ModuleNameSubsection)
    (fn : Option FunctionNameSubsection) (payload rest : List Nat)
    (s : LocalNameSubsection) (ns : NameSection)
    (hplen : payload.length < 2 ^ 32)
    (hcons : Consumes (LocalNameSubsection.deserialize m) payload s)
    (hrest : RunsToOk m rest mn fn (some s) ns) :
    RunsToOk m ((NAME_TYPE_LOCAL :: (leb128 payload.length ++ payload)) ++ rest)
      mn fn none ns := by
  intro pre fuel hf
  match fuel with
  | fuel + 1 =>
    have hstep := loop_step_local m fuel mn fn pre payload rest s hplen hcons
    have hrest' := hrest (pre ++ (NAME_TYPE_LOCAL :: (leb128 payload.length ++ payload)))
      fuel (by
        simp only [List.length_append, List.length_cons, List.length_nil] at hf ⊢
        omega)
    simp only [List.append_assoc, List.cons_append, List.nil_append,
      List.length_append, List.length_cons, List.length_nil,
      Nat.zero_add, Nat.add_zero] at hstep hrest' ⊢
    rw [hstep]
    rw [show pre.length + (1 + ((leb128 payload.length).length + payload.length))
        = pre.length + ((leb128 payload.length).length + payload.length + 1) from by omega]
    rw [hrest']
    simp only [PRes.ok.injEq, Prod.mk.injEq, Cursor.mk.injEq, eq_self_iff_true, true_and]
    omega

/-! ## Well-formedness of in-memory name sections -/

theorem consumes_moduleNameSub {s : ModuleNameSubsection} {bs : List Nat}
    (hs : s.serialize = .ok bs) : Consumes ModuleNameSubsection.deserialize bs s := by
  have h1 := string_serialize_consumes hs
  have hstep : Consumes (dbind stringDeser fun name => dpure (⟨name⟩ : ModuleNameSubsection))
      (bs ++ []) s := by
    refine consumes_dbind h1 ?_
    obtain ⟨name⟩ := s
    exact consumes_dpure _
  simpa [ModuleNameSubsection.deserialize, bind_eq_dbind, pure_eq_dpure] using hstep

theorem consumes_functionNameSub {m : Module} {s : FunctionNameSubsection} {bs : List Nat}
    (hwf : NameMapWF m.functions_space s.names)
    (hs : s.serialize = .ok bs) : Consumes (FunctionNameSubsection.deserialize m) bs s := by
  have h1 : Consumes (deserializeIndexMapWith m.functions_space fun _ => stringDeser)
      bs s.names :=
    consumes_deserializeIndexMapWith hs hwf.1 hwf.2
      (fun e _ bsv hbs => string_serialize_consumes hbs)
  have hstep : Consumes (dbind (deserializeIndexMapWith m.functions_space fun _ => stringDeser)
      fun names => dpure (⟨names⟩ : FunctionNameSubsection)) (bs ++ []) s := by
    refine consumes_dbind h1 ?_
    obtain ⟨names⟩ := s
    exact consumes_dpure _
  simpa [FunctionNameSubsection.deserialize, deserializeIndexMap, bind_eq_dbind,
    pure_eq_dpure] using hstep

theorem consumes_localNameSub {m : Module} {s : LocalNameSubsection} {bs : List Nat}
    (hsort : s.local_names.Pairwise fun a b => a.1 < b.1)
    (hbd : ∀ e ∈ s.local_names, e.1 < m.functions_space ∧ e.1 < 2 ^ 32 ∧
      NameMapWF (maxSignatureArgs m + maxLocals m) e.2)
    (hs : s.serialize = .ok bs) : Consumes (LocalNameSubsection.deserialize m) bs s := by
  have h1 : Consumes (deserializeIndexMapWith m.functions_space
      fun _ => deserializeIndexMapWith (maxSignatureArgs m + maxLocals m) fun _ => stringDeser)
      bs s.local_names := by
    refine consumes_deserializeIndexMapWith hs hsort
      (fun e he => ⟨(hbd e he).1, (hbd e he).2.1⟩) ?_
    intro e he bsv hbs
    have hwf := (hbd e he).2.2
    exact consumes_deserializeIndexMapWith hbs hwf.1 hwf.2
      (fun e2 _ bsv2 hbs2 => string_serialize_consumes hbs2)
  have hstep : Consumes (dbind (deserializeIndexMapWith m.functions_space
      fun _ => deserializeIndexMapWith (maxSignatureArgs m + maxLocals m) fun _ => stringDeser)
      fun local_names => dpure (⟨local_names⟩ : LocalNameSubsection)) (bs ++ []) s := by
    refine consumes_dbind h1 ?_
    obtain ⟨local_names⟩ := s
    exact consumes_dpure _
  simpa [LocalNameSubsection.deserialize, deserializeIndexMap, bind_eq_dbind,
    pure_eq_dpure] using hstep


/-- A failure of the first deserializer short-circuits a sequence. -/
theorem fails_dbind_left {α β : Type} {f : Deser α} {g : α → Deser β}
    {bs : List Nat} {e : Error} (h : FailsWith f bs e) :
    FailsWith (dbind f g) bs e := by
  intro pre post
  have hf := h pre post
  simp only [List.append_assoc] at hf ⊢
  simp [dbind, hf]

/-! ## The claims -/

/-- C6 (counterexample): the claim says a negative offset whose resulting
position stays at or above zero succeeds; the code converts the `i64`
offset to `usize` with `try_into`, which fails for every negative offset,
so `seek_relative (-1)` from position 1 returns `InvalidInput` even
though the resulting position `1 + (-1) = 0` would not underflow. -/
theorem seek_relative_negative_cex :
    Cursor.seek_relative ⟨[0, 0], 1⟩ (-1) = .err .InvalidInput ∧
    ((-1 : Int) < 0 ∧ (0 : Int) ≤ 1 + (-1)) := by decide

/-- C6 (amended): `Cursor::seek_relative` fails with `InvalidInput` for
every negative offset (the `i64 → usize` conversion) and whenever the new
position would overflow `usize`; any non-negative offset that keeps the
position within `usize` range succeeds and adds the offset, without any
bound check against the buffer length. -/
theorem seek_relative_spec (c : Cursor) (offset : Int) :
    (offset < 0 → c.seek_relative offset = .err .InvalidInput) ∧
    (0 ≤ offset → c.pos + offset.toNat ≤ USIZE_MAX →
      c.seek_relative offset = .ok ⟨c.data, c.pos + offset.toNat⟩) ∧
    (0 ≤ offset → USIZE_MAX < c.pos + offset.toNat →
      c.seek_relative offset = .err .InvalidInput) := by
  unfold Cursor.seek_relative
  refine ⟨fun h => by rw [if_pos h], fun h1 h2 => ?_, fun h1 h2 => ?_⟩
  · rw [if_neg (not_lt.mpr h1), if_neg (by omega)]
  · rw [if_neg (not_lt.mpr h1), if_pos h2]

/-- Witness for C6's amended theorem at concrete inputs: a negative seek
is rejected, an in-range positive seek succeeds. -/
theorem seek_relative_spec_witness :
    Cursor.seek_relative ⟨[0, 1, 2], 1⟩ (-1) = .err .InvalidInput ∧
    Cursor.seek_relative ⟨[0, 1, 2], 1⟩ 4 = .ok ⟨[0, 1, 2], 1 + (4 : Int).toNat⟩ :=
  ⟨(seek_relative_spec ⟨[0, 1, 2], 1⟩ (-1)).1 (by decide),
    (seek_relative_spec ⟨[0, 1, 2], 1⟩ 4).2.1 (by decide) (by decide)⟩

/-- C7: for a cursor within its buffer, `read n` fails with
`UnexpectedEof` when fewer than `n` bytes remain, and otherwise succeeds,
returning exactly the next `n` bytes of the buffer and advancing the
position by exactly `n`. -/
theorem cursor_read_contract (c : Cursor) (n : Nat) (h : c.pos ≤ c.data.length) :
    (c.data.length - c.pos < n → c.read n = .err .UnexpectedEof) ∧
    (n ≤ c.data.length - c.pos →
      ∃ out, c.read n = .ok (out, ⟨c.data, c.pos + n⟩) ∧ out.length = n ∧
        ∀ i, i < n → out[i]? = c.data[c.pos + i]?) := by
  constructor
  · intro hlt
    simp only [Cursor.read]
    rw [if_neg (by omega), if_pos hlt]
  · intro hge
    refine ⟨(c.data.drop c.pos).take n, ?_, ?_, ?_⟩
    · simp only [Cursor.read]
      rw [if_neg (by omega), if_neg (by omega)]
    · rw [List.length_take, List.length_drop]
      omega
    · intro i hi
      rw [List.getElem?_take, if_pos hi, List.getElem?_drop]

/-- Witness for C7 at concrete inputs: reading 3 of 2 remaining bytes is
`UnexpectedEof`; reading 2 succeeds with the bytes and advances by 2. -/
theorem cursor_read_contract_witness :
    Cursor.read ⟨[5, 6], 0⟩ 3 = .err .UnexpectedEof ∧
    ∃ out, Cursor.read ⟨[5, 6], 0⟩ 2 = .ok (out, ⟨[5, 6], 0 + 2⟩) ∧ out.length = 2 ∧
      ∀ i, i < 2 → out[i]? = ([5, 6] : List Nat)[0 + i]? :=
  ⟨(cursor_read_contract ⟨[5, 6], 0⟩ 3 (by decide)).1 (by decide),
    (cursor_read_contract ⟨[5, 6], 0⟩ 2 (by decide)).2 (by decide)⟩

/-- C9: `Cursor::read` is total — `Ok` or `UnexpectedEof`, never a panic —
for every cursor with `pos ≤ len`; and the precondition is necessary:
`seek_relative` can move a valid cursor past the buffer length, after
which the `len - pos` computation of `read` underflows (a panic). -/
theorem cursor_read_total_within_bounds :
    (∀ (c : Cursor) (n : Nat), c.pos ≤ c.data.length →
      (∃ r, c.read n = .ok r) ∨ c.read n = .err .UnexpectedEof) ∧
    (Cursor.seek_relative ⟨[0], 0⟩ 5 = .ok ⟨[0], 5⟩ ∧
      Cursor.read ⟨[0], 5⟩ 1 = .panic) := by
  constructor
  · intro c n h
    by_cases hlt : c.data.length - c.pos < n
    · right
      simp only [Cursor.read]
      rw [if_neg (by omega), if_pos hlt]
    · left
      refine ⟨((c.data.drop c.pos).take n, ⟨c.data, c.pos + n⟩), ?_⟩
      simp only [Cursor.read]
      rw [if_neg (by omega), if_neg hlt]
  · exact ⟨by decide, by decide⟩

/-- Witness for C9 at a concrete input within bounds. -/
theorem cursor_read_total_within_bounds_witness :
    (∃ r, Cursor.read ⟨[0], 0⟩ 1 = .ok r) ∨
      Cursor.read ⟨[0], 0⟩ 1 = .err .UnexpectedEof :=
  cursor_read_total_within_bounds.1 ⟨[0], 0⟩ 1 (by decide)

/-- C8: the subsection loop returns success with the subsections recorded
so far whenever no further tag byte can be read at the start of an
iteration (position at end of stream), and the empty stream deserializes
to a name section with all three subsections absent. -/
theorem loop_end_of_stream_success :
    (∀ (m : Module) (fuel : Nat) (mn : Option ModuleNameSubsection)
        (fn : Option FunctionNameSubsection) (ln : Option LocalNameSubsection)
        (c : Cursor), c.pos = c.data.length →
      deserializeLoop m (fuel + 1) mn fn ln c = .ok (⟨mn, fn, ln⟩, c)) ∧
    (∀ m : Module,
      NameSection.deserialize m ⟨[], 0⟩ = .ok (⟨none, none, none⟩, ⟨[], 0⟩)) :=
  ⟨loop_terminal, fun m => loop_terminal m 0 none none none ⟨[], 0⟩ rfl⟩

/-- Witness for C8: a mid-stream cursor already at the end, with
subsections recorded, ends the loop as success. -/
theorem loop_end_of_stream_success_witness :
    deserializeLoop ⟨0, none, none, none⟩ 1 (some ⟨[97]⟩) none none ⟨[9], 1⟩
      = .ok (⟨some ⟨[97]⟩, none, none⟩, ⟨[9], 1⟩) :=
  loop_end_of_stream_success.1 ⟨0, none, none, none⟩ 0 (some ⟨[97]⟩) none none
    ⟨[9], 1⟩ rfl

set_option maxRecDepth 4000 in
/-- C10: a second module-name frame (tag 0) while a module name is already
recorded fails with `DuplicatedNameSubsections NAME_TYPE_FUNCTION` — the
function-names tag value 1, not the module-name tag value 0 of the kind
actually duplicated; shown for every loop state and on a complete
two-module-name stream. -/
theorem duplicated_module_name_error_tag :
    (∀ (m : Module) (fuel : Nat) (s0 : ModuleNameSubsection)
        (fn : Option FunctionNameSubsection) (ln : Option LocalNameSubsection)
        (pre post : List Nat) (sz : Nat), sz < 2 ^ 32 →
      deserializeLoop m (fuel + 1) (some s0) fn ln
          ⟨pre ++ (NAME_TYPE_MODULE :: leb128 sz) ++ post, pre.length⟩
        = .err (.DuplicatedNameSubsections NAME_TYPE_FUNCTION)) ∧
    NAME_TYPE_MODULE = 0 ∧ NAME_TYPE_FUNCTION = 1 ∧
    NameSection.deserialize ⟨0, none, none, none⟩ ⟨[0, 2, 1, 97, 0, 2], 0⟩
      = .err (.DuplicatedNameSubsections 1) :=
  ⟨fun m fuel s0 fn ln pre post sz hsz =>
      loop_dup_module m fuel s0 fn ln pre post sz hsz,
    rfl, rfl, by decide⟩

/-- Witness for C10's quantified part at a concrete loop state. -/
theorem duplicated_module_name_error_tag_witness :
    deserializeLoop ⟨0, none, none, none⟩ 1 (some ⟨[]⟩) none none
        ⟨([] : List Nat) ++ (NAME_TYPE_MODULE :: leb128 0) ++ ([] : List Nat), (0 : Nat)⟩
      = .err (.DuplicatedNameSubsections NAME_TYPE_FUNCTION) :=
  duplicated_module_name_error_tag.1 ⟨0, none, none, none⟩ 0 ⟨[]⟩ none none
    [] [] 0 (by decide)

/-- C4: a frame whose tag names a kind already recorded in the same name
section fails with a duplicated-name-subsection error, for each of the
three known kinds and for every loop state. -/
theorem duplicated_subsection_rejected :
    ∀ (m : Module) (fuel : Nat) (mn : Option ModuleNameSubsection)
      (fn : Option FunctionNameSubsection) (ln : Option LocalNameSubsection)
      (pre post : List Nat) (tag sz : Nat), sz < 2 ^ 32 →
      ((tag = NAME_TYPE_MODULE ∧ mn.isSome) ∨ (tag = NAME_TYPE_FUNCTION ∧ fn.isSome) ∨
        (tag = NAME_TYPE_LOCAL ∧ ln.isSome)) →
      ∃ t, deserializeLoop m (fuel + 1) mn fn ln
          ⟨pre ++ (tag :: leb128 sz) ++ post, pre.length⟩
        = .err (.DuplicatedNameSubsections t) := by
  rintro m fuel mn fn ln pre post tag sz hsz (⟨rfl, hs⟩ | ⟨rfl, hs⟩ | ⟨rfl, hs⟩)
  · obtain ⟨s0, rfl⟩ := Option.isSome_iff_exists.mp hs
    exact ⟨_, loop_dup_module m fuel s0 fn ln pre post sz hsz⟩
  · obtain ⟨s0, rfl⟩ := Option.isSome_iff_exists.mp hs
    exact ⟨_, loop_dup_function m fuel mn s0 ln pre post sz hsz⟩
  · obtain ⟨s0, rfl⟩ := Option.isSome_iff_exists.mp hs
    exact ⟨_, loop_dup_local m fuel mn fn s0 pre post sz hsz⟩

/-- Witness for C4 at a concrete loop state: a repeated function-names
tag. -/
theorem duplicated_subsection_rejected_witness :
    ∃ t, deserializeLoop ⟨1, none, none, none⟩ 1 none (some ⟨[]⟩) none
        ⟨([] : List Nat) ++ ((1 : Nat) :: leb128 3) ++ [7, 7, 7], (0 : Nat)⟩
      = .err (.DuplicatedNameSubsections t) :=
  duplicated_subsection_rejected ⟨1, none, none, none⟩ 0 none (some ⟨[]⟩) none
    [] [7, 7, 7] 1 3 (by decide) (by simp [NAME_TYPE_FUNCTION])

set_option maxRecDepth 8000 in
/-- C3: an unrecognized subsection tag whose declared size exceeds the
bytes remaining in the stream makes deserialization fail with
`UnexpectedEof` (the post-seek position check), for every loop state; in
particular the regression buffer `0xFF, size 0xFFFFFFFF, 1024 zero bytes`
fails with `UnexpectedEof`. -/
theorem skip_past_end_unexpected_eof :
    (∀ (m : Module) (fuel : Nat) (mn : Option ModuleNameSubsection)
        (fn : Option FunctionNameSubsection) (ln : Option LocalNameSubsection)
        (pre rest : List Nat) (tag sz : Nat),
      tag < 256 → tag ≠ NAME_TYPE_MODULE → tag ≠ NAME_TYPE_FUNCTION →
      tag ≠ NAME_TYPE_LOCAL → sz < 2 ^ 32 → rest.length < sz →
      pre.length + 1 + (leb128 sz).length + sz ≤ USIZE_MAX →
      deserializeLoop m (fuel + 1) mn fn ln
          ⟨pre ++ (tag :: (leb128 sz ++ rest)), pre.length⟩ = .err .UnexpectedEof) ∧
    NameSection.deserialize ⟨0, none, none, none⟩
        ⟨255 :: (leb128 4294967295 ++ List.replicate 1024 0), 0⟩
      = .err .UnexpectedEof := by
  refine ⟨?_, by decide⟩
  intro m fuel mn fn ln pre rest tag sz htagb htag0 htag1 htag2 hsz hrest hfit
  exact loop_skip_eof m fuel mn fn ln pre rest tag sz htagb htag0 htag1 htag2 hsz
    hrest hfit

/-- Witness for C3's quantified part at a concrete loop state: tag 5,
declared size 4, only 2 bytes remaining. -/
theorem skip_past_end_unexpected_eof_witness :
    deserializeLoop ⟨0, none, none, none⟩ 1 none none none
        ⟨([] : List Nat) ++ ((5 : Nat) :: (leb128 4 ++ [8, 8])), (0 : Nat)⟩ = .err .UnexpectedEof :=
  skip_past_end_unexpected_eof.1 ⟨0, none, none, none⟩ 0 none none none [] [8, 8] 5 4
    (by decide) (by decide) (by decide) (by decide) (by decide) (by decide) (by decide)


/-- Serializing a one-entry index map whose value serializes. -/
theorem serializeIndexMap_singleton {α : Type} (serV : α → Except Error (List Nat))
    (k : Nat) (v : α) {vb : List Nat} (h : serV v = .ok vb) :
    serializeIndexMap serV [(k, v)] = .ok (leb128 1 ++ leb128 k ++ vb) := by
  simp [serializeIndexMap, serializeEntries, h]

/-- Serializing a one-entry index map whose value fails to serialize. -/
theorem serializeIndexMap_singleton_err {α : Type} (serV : α → Except Error (List Nat))
    (k : Nat) (v : α) {e : Error} (h : serV v = .error e) :
    serializeIndexMap serV [(k, v)] = .error e := by
  simp [serializeIndexMap, serializeEntries, h]

/-- C5: deserializing a serialized function-name map against a module
fails with the out-of-bounds error whenever some entry index is at or
above the module's function space, and succeeds — reproducing every entry,
none clamped or dropped — when all indices are below it. -/
theorem function_name_bound_rejection (m : Module) (nm : List (Nat × List Nat))
    (bytes : List Nat)
    (hsort : nm.Pairwise fun a b => a.1 < b.1)
    (h32 : ∀ e ∈ nm, e.1 < 2 ^ 32)
    (hser : serializeIndexMap serializeString nm = .ok bytes) :
    ((∃ e ∈ nm, m.functions_space ≤ e.1) →
      FunctionNameSubsection.deserialize m ⟨bytes, 0⟩ = .err .OutOfBoundsIndex) ∧
    ((∀ e ∈ nm, e.1 < m.functions_space) →
      FunctionNameSubsection.deserialize m ⟨bytes, 0⟩
        = .ok (⟨nm⟩, ⟨bytes, bytes.length⟩)) := by
  constructor
  · intro hex
    have hf : FailsWith (deserializeIndexMapWith m.functions_space fun _ => stringDeser)
        bytes .OutOfBoundsIndex :=
      fails_deserializeIndexMapWith_oob hser hsort h32
        (fun e _ bs hbs => string_serialize_consumes hbs) hex
    have hf2 : FailsWith (FunctionNameSubsection.deserialize m) bytes .OutOfBoundsIndex := by
      have : FailsWith (dbind (deserializeIndexMapWith m.functions_space fun _ => stringDeser)
          fun names => dpure (⟨names⟩ : FunctionNameSubsection)) bytes .OutOfBoundsIndex :=
        fails_dbind_left hf
      simpa [FunctionNameSubsection.deserialize, deserializeIndexMap, bind_eq_dbind,
        pure_eq_dpure] using this
    have := hf2 [] []
    simpa using this
  · intro hlt
    have := consumes_functionNameSub (m := m) (s := ⟨nm⟩)
      ⟨hsort, fun e he => ⟨hlt e he, h32 e he⟩⟩ hser [] []
    simpa using this

/-- Witness for C5, the spec's concrete scenario: the serialized map
`{0 ↦ "foo", 1 ↦ "bar"}` deserializes against function space 2 and is
rejected as out of bounds against function space 1. -/
theorem function_name_bound_rejection_witness :
    FunctionNameSubsection.deserialize ⟨2, none, none, none⟩
        ⟨[2, 0, 3, 102, 111, 111, 1, 3, 98, 97, 114], 0⟩
      = .ok (⟨[(0, [102, 111, 111]), (1, [98, 97, 114])]⟩,
          ⟨[2, 0, 3, 102, 111, 111, 1, 3, 98, 97, 114], 11⟩) ∧
    FunctionNameSubsection.deserialize ⟨1, none, none, none⟩
        ⟨[2, 0, 3, 102, 111, 111, 1, 3, 98, 97, 114], 0⟩ = .err .OutOfBoundsIndex :=
  ⟨(function_name_bound_rejection ⟨2, none, none, none⟩
      [(0, [102, 111, 111]), (1, [98, 97, 114])]
      [2, 0, 3, 102, 111, 111, 1, 3, 98, 97, 114] (by decide) (by decide)
      (by rfl)).2 (by decide),
    (function_name_bound_rejection ⟨1, none, none, none⟩
      [(0, [102, 111, 111]), (1, [98, 97, 114])]
      [2, 0, 3, 102, 111, 111, 1, 3, 98, 97, 114] (by decide) (by decide)
      (by rfl)).1 (by decide)⟩

/-- C2 (counterexample): against a module whose single function has a
0-parameter signature (type index 1) and a 0-local body, while an unused
type-section entry has 2 parameters, the bound the claim describes is 0,
yet an inner local-name entry with index 1 deserializes successfully —
the bound the code uses is `maxSignatureArgs + maxLocals = 2`, the sum of
two maxima taken over the whole type and code sections, not the maximum
of per-function sums.  Deserializing the same inner map with the claim's
bound would reject it. -/
theorem local_name_inner_bound_claim_cex :
    specLocalNameInnerBound ⟨1, some [.function ⟨[.i32, .i32]⟩, .function ⟨[]⟩],
        some [1], some [⟨[]⟩]⟩ = 0 ∧
    maxSignatureArgs ⟨1, some [.function ⟨[.i32, .i32]⟩, .function ⟨[]⟩],
        some [1], some [⟨[]⟩]⟩ +
      maxLocals ⟨1, some [.function ⟨[.i32, .i32]⟩, .function ⟨[]⟩],
        some [1], some [⟨[]⟩]⟩ = 2 ∧
    LocalNameSubsection.deserialize ⟨1, some [.function ⟨[.i32, .i32]⟩, .function ⟨[]⟩],
        some [1], some [⟨[]⟩]⟩ ⟨[1, 0, 1, 1, 1, 120], 0⟩
      = .ok (⟨[(0, [(1, [120])])]⟩, ⟨[1, 0, 1, 1, 1, 120], 6⟩) ∧
    deserializeIndexMapWith (specLocalNameInnerBound ⟨1,
        some [.function ⟨[.i32, .i32]⟩, .function ⟨[]⟩], some [1], some [⟨[]⟩]⟩)
        (fun _ => stringDeser) ⟨[1, 1, 1, 120], 0⟩ = .err .OutOfBoundsIndex := by
  decide

/-- C2 (amended): the bound `LocalNameSubsection::deserialize` applies to
every inner map is the single global value `maxSignatureArgs + maxLocals`
— the maximum parameter count over all type-section signatures plus the
maximum summed declared-local count over all code bodies: an inner entry
index below that sum is accepted and one at or above it is rejected,
whatever the per-function parameter and local counts are. -/
theorem local_name_inner_bound_global_sum (m : Module) (f0 : Nat)
    (nm : List (Nat × List Nat)) (bytes : List Nat)
    (hf0 : f0 < m.functions_space) (hf032 : f0 < 2 ^ 32)
    (hsort : nm.Pairwise fun a b => a.1 < b.1)
    (h32 : ∀ e ∈ nm, e.1 < 2 ^ 32)
    (hser : serializeIndexMap (serializeIndexMap serializeString) [(f0, nm)] = .ok bytes) :
    ((∀ e ∈ nm, e.1 < maxSignatureArgs m + maxLocals m) →
      LocalNameSubsection.deserialize m ⟨bytes, 0⟩
        = .ok (⟨[(f0, nm)]⟩, ⟨bytes, bytes.length⟩)) ∧
    ((∃ e ∈ nm, maxSignatureArgs m + maxLocals m ≤ e.1) →
      LocalNameSubsection.deserialize m ⟨bytes, 0⟩ = .err .OutOfBoundsIndex) := by
  constructor
  · intro hbd
    have := consumes_localNameSub (m := m) (s := ⟨[(f0, nm)]⟩) (by simp)
      (by
        intro e he
        simp only [List.mem_singleton] at he
        subst he
        exact ⟨hf0, hf032, hsort, fun e2 he2 => ⟨hbd e2 he2, h32 e2 he2⟩⟩)
      hser [] []
    simpa using this
  · intro hex
    -- invert the two-level serialization of the single outer entry
    rcases h1 : serializeIndexMap serializeString nm with e1 | ibytes
    · rw [serializeIndexMap_singleton_err _ _ _ h1] at hser
      cases hser
    rw [serializeIndexMap_singleton _ _ _ h1] at hser
    have hbytes : bytes = leb128 1 ++ leb128 f0 ++ ibytes := by
      cases hser
      rfl
    subst hbytes
    have hinner : FailsWith
        (deserializeIndexMapWith (maxSignatureArgs m + maxLocals m) fun _ => stringDeser)
        ibytes .OutOfBoundsIndex :=
      fails_deserializeIndexMapWith_oob h1 hsort h32
        (fun e _ bs hbs => string_serialize_consumes hbs) hex
    have hentry : FailsWith
        (deserEntries m.functions_space
          (fun _ => deserializeIndexMapWith (maxSignatureArgs m + maxLocals m)
            fun _ => stringDeser) 1 [])
        (leb128 f0 ++ ibytes) .OutOfBoundsIndex := by
      simp only [deserEntries, bind_eq_dbind]
      refine fails_dbind (consumes_varUint32 hf032) ?_
      rw [if_neg (by omega), if_neg (by simp)]
      exact fails_dbind_left hinner
    have houter : FailsWith
        (deserializeIndexMapWith m.functions_space
          (fun _ => deserializeIndexMapWith (maxSignatureArgs m + maxLocals m)
            fun _ => stringDeser))
        (leb128 1 ++ (leb128 f0 ++ ibytes)) .OutOfBoundsIndex := by
      simp only [deserializeIndexMapWith, bind_eq_dbind]
      exact fails_dbind (consumes_varUint32 (by norm_num)) hentry
    have hlns : FailsWith (LocalNameSubsection.deserialize m)
        (leb128 1 ++ (leb128 f0 ++ ibytes)) .OutOfBoundsIndex := by
      have := fails_dbind_left (g := fun local_names =>
        dpure (⟨local_names⟩ : LocalNameSubsection)) houter
      simpa [LocalNameSubsection.deserialize, deserializeIndexMap, bind_eq_dbind,
        pure_eq_dpure] using this
    have := hlns [] []
    simpa [List.append_assoc] using this

/-- Witness for C2's amended theorem: against a module with bound
`1 + 0 = 1`, the inner entry with index 0 is accepted and the inner entry
with index 1 is rejected. -/
theorem local_name_inner_bound_global_sum_witness :
    LocalNameSubsection.deserialize ⟨1, some [.function ⟨[.i32]⟩], some [0], some [⟨[]⟩]⟩
        ⟨[1, 0, 1, 0, 1, 120], 0⟩
      = .ok (⟨[(0, [(0, [120])])]⟩, ⟨[1, 0, 1, 0, 1, 120], 6⟩) ∧
    LocalNameSubsection.deserialize ⟨1, some [.function ⟨[.i32]⟩], some [0], some [⟨[]⟩]⟩
        ⟨[1, 0, 1, 1, 1, 120], 0⟩ = .err .OutOfBoundsIndex :=
  ⟨(local_name_inner_bound_global_sum ⟨1, some [.function ⟨[.i32]⟩], some [0], some [⟨[]⟩]⟩
      0 [(0, [120])] [1, 0, 1, 0, 1, 120] (by decide) (by decide) (by decide) (by decide)
      (by rfl)).1 (by decide),
    (local_name_inner_bound_global_sum ⟨1, some [.function ⟨[.i32]⟩], some [0], some [⟨[]⟩]⟩
      0 [(1, [120])] [1, 0, 1, 1, 1, 120] (by decide) (by decide) (by decide) (by decide)
      (by rfl)).2 (by decide)⟩


/-- Inverting the `serialize_subsection` framing helper. -/
theorem serialize_subsection_ok {tag : Nat} {p frame : List Nat}
    (h : serialize_subsection tag p = .ok frame) :
    p.length < 2 ^ 32 ∧ frame = tag :: (leb128 p.length ++ p) := by
  unfold serialize_subsection at h
  split at h
  · cases h
  · cases h
    exact ⟨by omega, rfl⟩

/-- Inverting one framed subsection of `NameSection::serialize`. -/
theorem subsection_frame_inv {tag : Nat} {ser : Except Error (List Nat)} {b : List Nat}
    (h : (do
        let buffer ← ser
        serialize_subsection tag buffer) = .ok b) :
    ∃ p, ser = .ok p ∧ p.length < 2 ^ 32 ∧ b = tag :: (leb128 p.length ++ p) := by
  rcases hp : ser with e | p
  · rw [hp] at h
    cases h
  · rw [hp] at h
    simp only [except_bind_ok] at h
    obtain ⟨hl, rfl⟩ := serialize_subsection_ok h
    exact ⟨p, rfl, hl, rfl⟩

/-- A successful run of the subsection loop over the whole buffer is a
successful `NameSection::deserialize`. -/
theorem runsToOk_deserialize {m : Module} {bytes : List Nat} {ns : NameSection}
    (h : RunsToOk m bytes none none none ns) :
    NameSection.deserialize m ⟨bytes, 0⟩ = .ok (ns, ⟨bytes, bytes.length⟩) := by
  have := h [] (bytes.length + 1) (by omega)
  simpa [NameSection.deserialize] using this


@[simp] theorem except_pure {ε α : Type} (a : α) :
    (pure a : Except ε α) = Except.ok a := rfl

/-- C1: serializing a name section whose index maps satisfy the module's
legal bounds and deserializing the bytes against that module returns a
structurally equal name section, for every combination of present
subsections. -/
theorem name_section_roundtrip (m : Module) (ns : NameSection) (bytes : List Nat)
    (hwf : NameSectionBounds m ns) (hser : ns.serialize = .ok bytes) :
    NameSection.deserialize m ⟨bytes, 0⟩ = .ok (ns, ⟨bytes, bytes.length⟩) := by
  obtain ⟨mn, fn, ln⟩ := ns
  obtain ⟨hwfF, hwfL⟩ := hwf
  simp only [NameSection.serialize] at hser
  rcases mn with _ | sm <;> rcases fn with _ | sf <;> rcases ln with _ | sl
  -- none, none, none
  · simp only [except_pure, except_bind_ok] at hser
    injection hser with hb
    subst hb
    refine runsToOk_deserialize ?_
    simpa using runsToOk_nil m none none none
  -- none, none, some sl
  · rcases h2 : sl.serialize with e2 | p2
    · simp [h2] at hser
    simp only [h2, except_pure, except_bind_ok] at hser
    rcases hf2 : serialize_subsection NAME_TYPE_LOCAL p2 with e2f | f2
    · simp [hf2] at hser
    obtain ⟨hl2, rfl⟩ := serialize_subsection_ok hf2
    simp only [hf2, except_bind_ok] at hser
    injection hser with hb
    subst hb
    refine runsToOk_deserialize ?_
    have hcons2 := consumes_localNameSub (hwfL sl rfl).1 (hwfL sl rfl).2 h2
    have chain := runsToOk_cons_local m none none p2 [] sl ⟨none, none, some sl⟩ hl2
      hcons2 (runsToOk_nil m none none (some sl))
    simpa using chain
  -- none, some sf, none
  · rcases h1 : sf.serialize with e1 | p1
    · simp [h1] at hser
    simp only [h1, except_pure, except_bind_ok] at hser
    rcases hf1 : serialize_subsection NAME_TYPE_FUNCTION p1 with e1f | f1
    · simp [hf1] at hser
    obtain ⟨hl1, rfl⟩ := serialize_subsection_ok hf1
    simp only [hf1, except_bind_ok] at hser
    injection hser with hb
    subst hb
    refine runsToOk_deserialize ?_
    have hcons1 := consumes_functionNameSub (hwfF sf rfl) h1
    have chain := runsToOk_cons_function m none none p1 [] sf ⟨none, some sf, none⟩ hl1
      hcons1 (runsToOk_nil m none (some sf) none)
    simpa using chain
  -- none, some sf, some sl
  · rcases h1 : sf.serialize with e1 | p1
    · simp [h1] at hser
    simp only [h1, except_pure, except_bind_ok] at hser
    rcases hf1 : serialize_subsection NAME_TYPE_FUNCTION p1 with e1f | f1
    · simp [hf1] at hser
    obtain ⟨hl1, rfl⟩ := serialize_subsection_ok hf1
    simp only [hf1, except_bind_ok] at hser
    rcases h2 : sl.serialize with e2 | p2
    · simp [h2] at hser
    simp only [h2, except_bind_ok] at hser
    rcases hf2 : serialize_subsection NAME_TYPE_LOCAL p2 with e2f | f2
    · simp [hf2] at hser
    obtain ⟨hl2, rfl⟩ := serialize_subsection_ok hf2
    simp only [hf2, except_bind_ok] at hser
    injection hser with hb
    subst hb
    refine runsToOk_deserialize ?_
    have hcons1 := consumes_functionNameSub (hwfF sf rfl) h1
    have hcons2 := consumes_localNameSub (hwfL sl rfl).1 (hwfL sl rfl).2 h2
    have c2 := runsToOk_cons_local m none (some sf) p2 [] sl ⟨none, some sf, some sl⟩ hl2
      hcons2 (runsToOk_nil m none (some sf) (some sl))
    have c1 := runsToOk_cons_function m none none p1
      ((NAME_TYPE_LOCAL :: (leb128 p2.length ++ p2)) ++ []) sf ⟨none, some sf, some sl⟩
      hl1 hcons1 c2
    simpa using c1
  -- some sm, none, none
  · rcases h0 : sm.serialize with e0 | p0
    · simp [h0] at hser
    simp only [h0, except_pure, except_bind_ok] at hser
    rcases hf0 : serialize_subsection NAME_TYPE_MODULE p0 with e0f | f0
    · simp [hf0] at hser
    obtain ⟨hl0, rfl⟩ := serialize_subsection_ok hf0
    simp only [hf0, except_bind_ok] at hser
    injection hser with hb
    subst hb
    refine runsToOk_deserialize ?_
    have hcons0 := consumes_moduleNameSub h0
    have chain := runsToOk_cons_module m none none p0 [] sm ⟨some sm, none, none⟩ hl0
      hcons0 (runsToOk_nil m (some sm) none none)
    simpa using chain
  -- some sm, none, some sl
  · rcases h0 : sm.serialize with e0 | p0
    · simp [h0] at hser
    simp only [h0, except_pure, except_bind_ok] at hser
    rcases hf0 : serialize_subsection NAME_TYPE_MODULE p0 with e0f | f0
    · simp [hf0] at hser
    obtain ⟨hl0, rfl⟩ := serialize_subsection_ok hf0
    simp only [hf0, except_bind_ok] at hser
    rcases h2 : sl.serialize with e2 | p2
    · simp [h2] at hser
    simp only [h2, except_bind_ok] at hser
    rcases hf2 : serialize_subsection NAME_TYPE_LOCAL p2 with e2f | f2
    · simp [hf2] at hser
    obtain ⟨hl2, rfl⟩ := serialize_subsection_ok hf2
    simp only [hf2, except_bind_ok] at hser
    injection hser with hb
    subst hb
    refine runsToOk_deserialize ?_
    have hcons0 := consumes_moduleNameSub h0
    have hcons2 := consumes_localNameSub (hwfL sl rfl).1 (hwfL sl rfl).2 h2
    have c2 := runsToOk_cons_local m (some sm) none p2 [] sl ⟨some sm, none, some sl⟩ hl2
      hcons2 (runsToOk_nil m (some sm) none (some sl))
    have c0 := runsToOk_cons_module m none none p0
      ((NAME_TYPE_LOCAL :: (leb128 p2.length ++ p2)) ++ []) sm ⟨some sm, none, some sl⟩
      hl0 hcons0 c2
    simpa using c0
  -- some sm, some sf, none
  · rcases h0 : sm.serialize with e0 | p0
    · simp [h0] at hser
    simp only [h0, except_pure, except_bind_ok] at hser
    rcases hf0 : serialize_subsection NAME_TYPE_MODULE p0 with e0f | f0
    · simp [hf0] at hser
    obtain ⟨hl0, rfl⟩ := serialize_subsection_ok hf0
    simp only [hf0, except_bind_ok] at hser
    rcases h1 : sf.serialize with e1 | p1
    · simp [h1] at hser
    simp only [h1, except_bind_ok] at hser
    rcases hf1 : serialize_subsection NAME_TYPE_FUNCTION p1 with e1f | f1
    · simp [hf1] at hser
    obtain ⟨hl1, rfl⟩ := serialize_subsection_ok hf1
    simp only [hf1, except_bind_ok] at hser
    injection hser with hb
    subst hb
    refine runsToOk_deserialize ?_
    have hcons0 := consumes_moduleNameSub h0
    have hcons1 := consumes_functionNameSub (hwfF sf rfl) h1
    have c1 := runsToOk_cons_function m (some sm) none p1 [] sf ⟨some sm, some sf, none⟩
      hl1 hcons1 (runsToOk_nil m (some sm) (some sf) none)
    have c0 := runsToOk_cons_module m none none p0
      ((NAME_TYPE_FUNCTION :: (leb128 p1.length ++ p1)) ++ []) sm ⟨some sm, some sf, none⟩
      hl0 hcons0 c1
    simpa using c0
  -- some sm, some sf, some sl
  · rcases h0 : sm.serialize with e0 | p0
    · simp [h0] at hser
    simp only [h0, except_pure, except_bind_ok] at hser
    rcases hf0 : serialize_subsection NAME_TYPE_MODULE p0 with e0f | f0
    · simp [hf0] at hser
    obtain ⟨hl0, rfl⟩ := serialize_subsection_ok hf0
    simp only [hf0, except_bind_ok] at hser
    rcases h1 : sf.serialize with e1 | p1
    · simp [h1] at hser
    simp only [h1, except_bind_ok] at hser
    rcases hf1 : serialize_subsection NAME_TYPE_FUNCTION p1 with e1f | f1
    · simp [hf1] at hser
    obtain ⟨hl1, rfl⟩ := serialize_subsection_ok hf1
    simp only [hf1, except_bind_ok] at hser
    rcases h2 : sl.serialize with e2 | p2
    · simp [h2] at hser
    simp only [h2, except_bind_ok] at hser
    rcases hf2 : serialize_subsection NAME_TYPE_LOCAL p2 with e2f | f2
    · simp [hf2] at hser
    obtain ⟨hl2, rfl⟩ := serialize_subsection_ok hf2
    simp only [hf2, except_bind_ok] at hser
    injection hser with hb
    subst hb
    refine runsToOk_deserialize ?_
    have hcons0 := consumes_moduleNameSub h0
    have hcons1 := consumes_functionNameSub (hwfF sf rfl) h1
    have hcons2 := consumes_localNameSub (hwfL sl rfl).1 (hwfL sl rfl).2 h2
    have c2 := runsToOk_cons_local m (some sm) (some sf) p2 [] sl
      ⟨some sm, some sf, some sl⟩ hl2 hcons2
      (runsToOk_nil m (some sm) (some sf) (some sl))
    have c1 := runsToOk_cons_function m (some sm) none p1
      ((NAME_TYPE_LOCAL :: (leb128 p2.length ++ p2)) ++ []) sf ⟨some sm, some sf, some sl⟩
      hl1 hcons1 c2
    have c0 := runsToOk_cons_module m none none p0
      ((NAME_TYPE_FUNCTION :: (leb128 p1.length ++ p1)) ++
        ((NAME_TYPE_LOCAL :: (leb128 p2.length ++ p2)) ++ [])) sm
      ⟨some sm, some sf, some sl⟩ hl0 hcons0 c1
    simpa using c0

/-- Witness for C1, the spec's concrete scenario extended to all three
subsections: module name "my_mod", function names {0 ↦ "foo", 1 ↦ "bar"}
and local names {0 ↦ {0 ↦ "msg"}} round-trip against a module with
function space 2 and local bound 2. -/
theorem name_section_roundtrip_witness :
    NameSection.deserialize
        ⟨2, some [.function ⟨[.i32]⟩], some [0, 0], some [⟨[⟨1, .i32⟩]⟩, ⟨[]⟩]⟩
        ⟨[0, 7, 6, 109, 121, 95, 109, 111, 100,
          1, 11, 2, 0, 3, 102, 111, 111, 1, 3, 98, 97, 114,
          2, 8, 1, 0, 1, 0, 3, 109, 115, 103], 0⟩
      = .ok (⟨some ⟨[109, 121, 95, 109, 111, 100]⟩,
          some ⟨[(0, [102, 111, 111]), (1, [98, 97, 114])]⟩,
          some ⟨[(0, [(0, [109, 115, 103])])]⟩⟩,
        ⟨[0, 7, 6, 109, 121, 95, 109, 111, 100,
          1, 11, 2, 0, 3, 102, 111, 111, 1, 3, 98, 97, 114,
          2, 8, 1, 0, 1, 0, 3, 109, 115, 103], 32⟩) :=
  name_section_roundtrip
    ⟨2, some [.function ⟨[.i32]⟩], some [0, 0], some [⟨[⟨1, .i32⟩]⟩, ⟨[]⟩]⟩
    ⟨some ⟨[109, 121, 95, 109, 111, 100]⟩,
      some ⟨[(0, [102, 111, 111]), (1, [98, 97, 114])]⟩,
      some ⟨[(0, [(0, [109, 115, 103])])]⟩⟩
    [0, 7, 6, 109, 121, 95, 109, 111, 100,
      1, 11, 2, 0, 3, 102, 111, 111, 1, 3, 98, 97, 114,
      2, 8, 1, 0, 1, 0, 3, 109, 115, 103]
    (by refine ⟨?_, ?_⟩ <;> intro x hx <;>
      simp only [Option.mem_def, Option.some.injEq] at hx <;> subst hx <;>
      simp only [NameMapWF] <;> decide)
    (by rfl)

end CasperWasm
